import Mathlib

/-!
Tic-tac-toe: board model, move validation, grid references and win detection.

A shallow embedding of `main.go`.  Go slices become lists, `int` fields become
`Int`, and every operation that can hit an out-of-range index (a Go run-time
panic) returns `Option`, with `none` standing for the panic.  A board is a
list of rows (`Board`) and the in-place assignment of `makeMove` a returned
board; boards as Go values, whose rows are windows on backing arrays and may
share them, are `SliceBoard` over a `Store`, with `makeMoveInPlace` the write,
and `makeMove_simulates` relates the two on boards with separate rows, such as
those of `newBoard`.  A Go string is a `String`
(its runes are the characters); the regular expression of `isValidGridRef` is
embedded as a small pattern type with a backtracking matcher, and
`strconv.Atoi` and `unicode.ToUpper` by their library code.  The input loop of
`getMove` runs over the list of strings that `fmt.Scan` reads; when the list is
used up the loop is still asking (`Outcome.waiting`).
-/

set_option autoImplicit false

namespace TicTacToe

/-! ## Data model -/

/-- Go `type Token string`. -/
abbrev Token := String

/-- Go `type Board [][]Token`: a list of rows. -/
abbrev Board := List (List Token)

/-- Go `type Player struct` with fields `name string` and `token Token`. -/
structure Player where
  name : String
  token : Token
deriving DecidableEq, Repr

/-- Go `type Move struct` with fields `x int` and `y int`: `x` is the column, `y` the row. -/
structure Move where
  x : Int
  y : Int
deriving DecidableEq, Repr

def OToken : Token := "O"
def XToken : Token := "X"
def NullToken : Token := " "

/-- The first player of `main`, named "Player 1", with `XToken`. -/
def player1 : Player := ⟨"Player 1", XToken⟩

/-- The second player of `main`, named "Player 2", with `OToken`. -/
def player2 : Player := ⟨"Player 2", OToken⟩

/-! ## Slice indexing -/

/-- Go slice indexing `l[i]` with an `int` index: a negative index or one at or past
the length panics (`none`). -/
def index {α : Type} (l : List α) (i : Int) : Option α :=
  if i < 0 then none else l[i.toNat]?

/-- Go slice assignment `l[i] = v`; panics (`none`) when `i` is out of range. -/
def setIndex {α : Type} (l : List α) (i : Int) (v : α) : Option (List α) :=
  if i < 0 then none
  else if i.toNat < l.length then some (l.set i.toNat v) else none

/-- The double index `b[r][c]`: first the row slice `b[r]`, then its element `c`. -/
def cell (b : Board) (r c : Int) : Option Token :=
  (index b r).bind (fun row => index row c)

/-! ## Board construction and moves -/

/-- Function `newBoard(x, y, defaultToken)`: `make([][]Token, y)` panics for negative `y`;
each of the `y` rows is `make([]Token, x)`, which panics for negative `x`, and is then
filled with `defaultToken`. -/
def newBoard (x y : Int) (defaultToken : Token) : Option Board :=
  if y < 0 then none
  else if 0 < y ∧ x < 0 then none
  else some (List.replicate y.toNat (List.replicate x.toNat defaultToken))

/-- Function `makeMove(b, m, p)`: `b[m.y][m.x] = p.token`, returning the board. -/
def makeMove (b : Board) (m : Move) (p : Player) : Option Board :=
  (index b m.y).bind (fun row =>
    (setIndex row m.x p.token).bind (fun row2 => setIndex b m.y row2))

/-- Function `isMoveTaken(b, m)`: `b[m.y][m.x] != NullToken`. -/
def isMoveTaken (b : Board) (m : Move) : Option Bool :=
  (cell b m.y m.x).map (fun t => t != NullToken)

/-- Function `isMoveOutOfBounds(b, m)`: `len(b) <= m.y || len(b[m.y]) <= m.x`; the right operand
is only evaluated when the left one is false. -/
def isMoveOutOfBounds (b : Board) (m : Move) : Option Bool :=
  if (b.length : Int) ≤ m.y then some true
  else (index b m.y).map (fun row => decide ((row.length : Int) ≤ m.x))

/-- Function `isValidMove(b, m)`: `!isMoveOutOfBounds(b, m) && !isMoveTaken(b, m)`, with the
short circuit of `&&`. -/
def isValidMove (b : Board) (m : Move) : Option Bool :=
  (isMoveOutOfBounds b m).bind (fun o =>
    if o then some false else (isMoveTaken b m).map (fun t => !t))

/-! ## Grid references -/

/-- Go `int32` wrap-around (the type of `rune`). -/
def wrapInt32 (i : Int) : Int := (i + 2 ^ 31) % 2 ^ 32 - 2 ^ 31

/-- Go `int` (64-bit) wrap-around. -/
def wrapInt64 (i : Int) : Int := (i + 2 ^ 63) % 2 ^ 64 - 2 ^ 63

/-- The fragment of Go regular expressions used by `isValidGridRef`: `^`, `$` (without the
`m` flag: beginning and end of the text), a character class given by its ranges,
concatenation and `?`. -/
inductive Regex where
  | beginText : Regex
  | endText : Regex
  | charClass : List (Char × Char) → Regex
  | cat : Regex → Regex → Regex
  | quest : Regex → Regex

/-- Membership of a character in a class given by inclusive ranges. -/
def inRanges (rs : List (Char × Char)) (c : Char) : Bool :=
  rs.any (fun r => decide (r.1.toNat ≤ c.toNat ∧ c.toNat ≤ r.2.toNat))

/-- Backtracking matcher: from the state (number of characters before this point, rest of
the text) the states after each way of matching, preferred first (`?` is greedy). -/
def Regex.run : Regex → Nat × List Char → List (Nat × List Char)
  | .beginText, st => if st.1 = 0 then [st] else []
  | .endText, st => if st.2.isEmpty then [st] else []
  | .charClass rs, st =>
    match st.2 with
    | [] => []
    | c :: cs => if inRanges rs c then [(st.1 + 1, cs)] else []
  | .cat a b, st => (a.run st).flatMap b.run
  | .quest a, st => a.run st ++ [st]

/-- The text of the preferred match starting exactly at position `pos`, if any. -/
def findAt (re : Regex) (pos : Nat) (rest : List Char) : Option (List Char) :=
  match re.run (pos, rest) with
  | [] => none
  | st :: _ => some (rest.take (st.1 - pos))

/-- Leftmost match: try every start position from `pos` on, in order. -/
def findFrom (re : Regex) : Nat → List Char → Option (List Char)
  | pos, [] => findAt re pos []
  | pos, c :: cs =>
    match findAt re pos (c :: cs) with
    | some m => some m
    | none => findFrom re (pos + 1) cs

/-- Method `(*Regexp).FindString`: the text of the leftmost match, the empty string when there is
no match. -/
def FindString (re : Regex) (s : String) : String :=
  match findFrom re 0 s.data with
  | some m => String.mk m
  | none => ""

/-- The pattern `^[a-zA-Z][1-9][0-9]?$`. -/
def gridRefPattern : Regex :=
  .cat .beginText
    (.cat (.charClass [('a', 'z'), ('A', 'Z')])
      (.cat (.charClass [('1', '9')])
        (.cat (.quest (.charClass [('0', '9')])) .endText)))

/-- Function `isValidGridRef(s)`: `re.FindString(s) != ""`. -/
def isValidGridRef (s : String) : Bool :=
  FindString gridRefPattern s != ""

/-- Library function `unicode.ToUpper(r)`: the ASCII branch is the library code;
`toUpperCase` stands for the Unicode case tables `To(UpperCase, r)` used above `MaxASCII`. -/
def ToUpper (toUpperCase : Int → Int) (r : Int) : Int :=
  if r ≤ 127 then (if 97 ≤ r ∧ r ≤ 122 then r - 32 else r) else toUpperCase r

/-- Function `charToInt(r)`: `int(unicode.ToUpper(r) - 'A')`, a subtraction in `rune` (`int32`). -/
def charToInt (toUpperCase : Int → Int) (r : Int) : Int :=
  wrapInt32 (ToUpper toUpperCase r - 65)

/-- Function `intToChar(i)`: `rune('A' + i)`. -/
def intToChar (i : Int) : Int :=
  wrapInt32 (65 + i)

/-- Value of a decimal digit, `none` for any other character. -/
def digitVal (c : Char) : Option Nat :=
  if 48 ≤ c.toNat ∧ c.toNat ≤ 57 then some (c.toNat - 48) else none

/-- Left-to-right accumulation of decimal digits; `none` at the first non-digit. -/
def parseDigits : Nat → List Char → Option Nat
  | acc, [] => some acc
  | acc, c :: cs => (digitVal c).bind (fun d => parseDigits (acc * 10 + d) cs)

/-- Library function `strconv.Atoi(s)` as (value, no error): optional sign, at least one
digit, digits only (else 0 with a syntax error); a value outside `int` is clamped, with a range error. -/
def Atoi (s : List Char) : Int × Bool :=
  let neg := s.head? == some '-'
  let ds := if s.head? == some '-' || s.head? == some '+' then s.tail else s
  if ds.isEmpty then (0, false)
  else
    match parseDigits 0 ds with
    | none => (0, false)
    | some n =>
      if neg then (if n > 2 ^ 63 then (-(2 ^ 63), false) else (-(n : Int), true))
      else (if n ≥ 2 ^ 63 then (2 ^ 63 - 1, false) else ((n : Int), true))

/-- Function `gridRefToMove(gr)`: `r := []rune(gr)`, `x := charToInt(r[0])` (panics on the empty
string), `y, _ := strconv.Atoi(string(r[1:]))`, result `Move{x, y - 1}`. -/
def gridRefToMove (toUpperCase : Int → Int) (gr : String) : Option Move :=
  match gr.data with
  | [] => none
  | c :: rest => some (Move.mk (charToInt toUpperCase c.toNat) (wrapInt64 ((Atoi rest).1 - 1)))

/-! ## Win detection -/

/-- The loop body of `isWinningLine` for `i = 1 .. len(l)-1`, with `first = l[0]`:
`b[l[i].x][l[i].y] != b[l[0].x][l[0].y] || b[l[i].x][l[i].y] == NullToken`
returns false; the loop running out returns true. -/
def isWinningLineFrom (b : Board) (first : Move) : List Move → Option Bool
  | [] => some true
  | m :: ms =>
    (cell b m.x m.y).bind (fun a =>
      (cell b first.x first.y).bind (fun f =>
        if a != f || a == NullToken then some false
        else isWinningLineFrom b first ms))

/-- Function `isWinningLine(b, l)`: the loop starts at index 1, so for a line of length 0 or 1
the board is never read. -/
def isWinningLine (b : Board) (l : List Move) : Option Bool :=
  match l with
  | [] => some true
  | first :: rest => isWinningLineFrom b first rest

/-- The inner loop of the first pass of `getAllLines` for one `x`: the column. -/
def columnLine (height : Nat) (x : Nat) : List Move :=
  (List.range height).map (fun (y : Nat) => Move.mk x y)

/-- What the inner loop for one `x` appends to `mainDiagonal`: the cells of the column
with `y+x == width-1`. -/
def mainDiagonalPart (width height : Nat) (x : Nat) : List Move :=
  ((List.range height).filter (fun (y : Nat) => decide ((y : Int) + x = (width : Int) - 1))).map
    (fun (y : Nat) => Move.mk x y)

/-- The inner loop of the second pass of `getAllLines` for one `y`: the row. -/
def rowLine (width : Nat) (y : Nat) : List Move :=
  (List.range width).map (fun (x : Nat) => Move.mk x y)

/-- What the inner loop for one `y` appends to `antiDiagonal`: the cells of the row
with `y == x`. -/
def antiDiagonalPart (width : Nat) (y : Nat) : List Move :=
  ((List.range width).filter (fun (x : Nat) => decide (y = x))).map
    (fun (x : Nat) => Move.mk x y)

/-- The lines `getAllLines` builds from the two dimensions: the columns, then
`mainDiagonal`, then the rows, then `antiDiagonal`. -/
def linesOf (width height : Nat) : List (List Move) :=
  (List.range width).map (columnLine height)
    ++ [(List.range width).flatMap (mainDiagonalPart width height)]
    ++ (List.range height).map (rowLine width)
    ++ [(List.range height).flatMap (antiDiagonalPart width)]

/-- Function `getAllLines(b)`: `width := len(b[0])` panics on a board without rows. -/
def getAllLines (b : Board) : Option (List (List Move)) :=
  (index b 0).map (fun row0 => linesOf row0.length b.length)

/-- The loop of `isWinner` over the lines: the first winning line returns true. -/
def isWinnerLoop (b : Board) : List (List Move) → Option Bool
  | [] => some false
  | l :: ls =>
    (isWinningLine b l).bind (fun w => if w then some true else isWinnerLoop b ls)

/-- Function `isWinner(b)`: the lines of `getAllLines(b)`, then the loop over them. -/
def isWinner (b : Board) : Option Bool :=
  (getAllLines b).bind (isWinnerLoop b)

/-! ## Definitions used to state and prove the properties -/

/-- Closed form of the anchored pattern on the characters of the text; proved equal to
`isValidGridRef` in `isValidGridRef_eq`. -/
def gridRefShape (s : List Char) : Bool :=
  match s with
  | [c, d] => inRanges [('a', 'z'), ('A', 'Z')] c && inRanges [('1', '9')] d
  | [c, d, e] =>
    inRanges [('a', 'z'), ('A', 'Z')] c && inRanges [('1', '9')] d && inRanges [('0', '9')] e
  | _ => false

/-- The number a sequence of decimal digits forms, leading zeros allowed. -/
def decimalValue (ds : List Char) : Nat :=
  ds.foldl (fun acc d => 10 * acc + (d.toNat - 48)) 0

/-- The grid references as the specification words them: exactly one ASCII letter followed
by one or two decimal digits, the digits forming a number from 1 to 99. -/
def gridRefBySpec (s : String) : Bool :=
  match s.data with
  | [] => false
  | c :: ds =>
    c.isAlpha && (ds.length == 1 || ds.length == 2) && ds.all Char.isDigit
      && decide (1 ≤ decimalValue ds) && decide (decimalValue ds ≤ 99)

/-- Some full row, some full column or one of the two full diagonals of an `n` x `n` board
consists of `n` equal tokens different from `NullToken`, the cell at column `x`, row `y`
being `b[y][x]` (the cell `makeMove` writes): in this order, row `y`, column `x`, the
diagonal `y = x` and the diagonal `x + y = n - 1`. -/
def hasFullLine (b : Board) (n : Nat) : Prop :=
  ∃ t : Token, t ≠ NullToken ∧
    ((∃ y : Nat, y < n ∧ ∀ x : Nat, x < n → cell b y x = some t) ∨
      (∃ x : Nat, x < n ∧ ∀ y : Nat, y < n → cell b y x = some t) ∨
      (∀ i : Nat, i < n → cell b i i = some t) ∨
      (∀ i : Nat, i < n → cell b i ((n : Int) - 1 - i) = some t))

/-! ## One turn of the game -/

/-- Result of a loop that consumes inputs: a returned value, a run-time panic, or still
asking for input when the inputs read so far are used up. -/
inductive Outcome (α : Type) where
  | value : α → Outcome α
  | panic : Outcome α
  | waiting : Outcome α
deriving DecidableEq, Repr

/-- Function `getMove(b, p)` over the strings that `fmt.Scan(&gr)` reads, in order: the first
one that passes `isValidGridRef` and whose move passes `isValidMove` is returned, every
other one is answered with "Enter a valid move" and the loop reads again. -/
def getMove (toUpperCase : Int → Int) (b : Board) (p : Player) : List String → Outcome Move
  | [] => .waiting
  | gr :: rest =>
    if isValidGridRef gr then
      match gridRefToMove toUpperCase gr with
      | none => .panic
      | some m =>
        match isValidMove b m with
        | none => .panic
        | some true => .value m
        | some false => getMove toUpperCase b p rest
    else getMove toUpperCase b p rest

/-- One pass of the loop of `main`: `m := getMove(b, p)` and `b = makeMove(b, m, p)`. -/
def turn (toUpperCase : Int → Int) (b : Board) (p : Player) (inputs : List String) :
    Outcome Board :=
  match getMove toUpperCase b p inputs with
  | .value m =>
    match makeMove b m p with
    | some b2 => .value b2
    | none => .panic
  | .panic => .panic
  | .waiting => .waiting

/-- An input that fails `isValidGridRef`, or whose parsed move fails `isValidMove`. -/
def rejectedInput (toUpperCase : Int → Int) (b : Board) (s : String) : Bool :=
  !isValidGridRef s || ((gridRefToMove toUpperCase s).bind (isValidMove b) == some false)

/-- An input that passes `isValidGridRef` and whose parsed move passes `isValidMove`. -/
def acceptedInput (toUpperCase : Int → Int) (b : Board) (s : String) : Bool :=
  isValidGridRef s && ((gridRefToMove toUpperCase s).bind (isValidMove b) == some true)

/-- A full row, column or diagonal of an `n` x `n` board that passes through the cell of
move `m` (row `m.y`, column `m.x`) and consists entirely of the token `t`, cells read as
`b[y][x]`: the row `m.y`, the column `m.x`, the diagonal `y = x` when `m` is on it, or the
diagonal `x + y = n - 1` when `m` is on it. -/
def fullLineThrough (b : Board) (n : Nat) (t : Token) (m : Move) : Prop :=
  (∀ x : Nat, x < n → cell b m.y x = some t) ∨
    (∀ y : Nat, y < n → cell b y m.x = some t) ∨
    (m.y = m.x ∧ ∀ i : Nat, i < n → cell b i i = some t) ∨
    (m.x + m.y = (n : Int) - 1 ∧ ∀ i : Nat, i < n → cell b i ((n : Int) - 1 - i) = some t)

/-! ## Boards as Go values: rows as windows on backing arrays -/

/-- A Go slice `[]Token` as a value: the backing array it points into, the offset of its
first element there, and its length. -/
structure RowSlice where
  arr : Nat
  off : Nat
  len : Nat
deriving DecidableEq, Repr

/-- The backing arrays of the program, by number. -/
abbrev Store := List (List Token)

/-- A Go `Board` as a value: the row slices it holds.  Two of them may point into the same
backing array. -/
abbrev SliceBoard := List RowSlice

/-- Indexing `row[c]` of a row slice: out of range for `c` outside `0 .. len-1`, else the
element of the backing array at `off + c`. -/
def rowCell (s : Store) (row : RowSlice) (c : Int) : Option Token :=
  if c < 0 ∨ (row.len : Int) ≤ c then none
  else (s[row.arr]?).bind (fun a => a[row.off + c.toNat]?)

/-- The double index `b[r][c]` on a board of row slices. -/
def storeCell (s : Store) (b : SliceBoard) (r c : Int) : Option Token :=
  (index b r).bind (fun row => rowCell s row c)

/-- Function `makeMove(b, m, p)` on Go values: `b[m.y][m.x] = p.token` writes one element
of the backing array of row `m.y`, in place, and `return b` returns the same row slices.
Every row slice whose window holds that element sees the write. -/
def makeMoveInPlace (s : Store) (b : SliceBoard) (m : Move) (p : Player) :
    Option (Store × SliceBoard) :=
  (index b m.y).bind (fun row =>
    if m.x < 0 ∨ (row.len : Int) ≤ m.x then none
    else (s[row.arr]?).bind (fun a =>
      if row.off + m.x.toNat < a.length then
        some (s.set row.arr (a.set (row.off + m.x.toNat) p.token), b)
      else none))

/-- Function `newBoard(x, y, defaultToken)` on Go values: each of the `y` rows is a fresh
backing array from `make([]Token, x)`, filled with `defaultToken`. -/
def newBoardInStore (s : Store) (x y : Int) (defaultToken : Token) :
    Option (Store × SliceBoard) :=
  if y < 0 then none
  else if 0 < y ∧ x < 0 then none
  else some (s ++ List.replicate y.toNat (List.replicate x.toNat defaultToken),
    (List.range y.toNat).map (fun (i : Nat) => RowSlice.mk (s.length + i) 0 x.toNat))

/-- Two row slices share an element of a backing array. -/
def rowsOverlap (r1 r2 : RowSlice) : Bool :=
  r1.arr == r2.arr && decide (0 < r1.len) && decide (0 < r2.len)
    && decide (r1.off < r2.off + r2.len) && decide (r2.off < r1.off + r1.len)

/-- No two rows of the board share an element of a backing array. -/
def separateRows (b : SliceBoard) : Prop :=
  b.Pairwise (fun r1 r2 => rowsOverlap r1 r2 = false)

instance separateRowsDecidable (b : SliceBoard) : Decidable (separateRows b) := by
  unfold separateRows
  exact inferInstance

/-- The board of lists `bd` is the board of row slices `b` read in the store `s`: same
number of rows, same row lengths, same cells. -/
def represents (s : Store) (b : SliceBoard) (bd : Board) : Prop :=
  bd.length = b.length ∧
    (∀ r : Int, (index bd r).map List.length = (index b r).map RowSlice.len) ∧
    ∀ r c : Int, cell bd r c = storeCell s b r c

/-! ## Slice indexing lemmas -/

theorem index_natCast {α : Type} (l : List α) (n : Nat) : index l (n : Int) = l[n]? := by
  simp [index]

theorem index_of_nonneg {α : Type} (l : List α) (i : Int) (hi : 0 ≤ i) :
    index l i = l[i.toNat]? := by
  simp [index, not_lt.mpr hi]

theorem index_eq_none_of_neg {α : Type} (l : List α) (i : Int) (hi : i < 0) :
    index l i = none := by
  simp [index, hi]

theorem index_eq_none_of_le {α : Type} (l : List α) (i : Int) (hi : (l.length : Int) ≤ i) :
    index l i = none := by
  unfold index
  split
  · rfl
  · rw [List.getElem?_eq_none_iff]
    omega

theorem index_eq_some {α : Type} (l : List α) (i : Int) (a : α) (h : index l i = some a) :
    0 ≤ i ∧ i < (l.length : Int) ∧ l[i.toNat]? = some a ∧ a ∈ l := by
  unfold index at h
  split at h
  · cases h
  · obtain ⟨hlt, _⟩ := List.getElem?_eq_some_iff.mp h
    exact ⟨by omega, by omega, h, List.getElem?_mem h⟩

theorem index_isSome {α : Type} (l : List α) (i : Int) (h0 : 0 ≤ i) (hi : i < (l.length : Int)) :
    ∃ a, index l i = some a ∧ a ∈ l := by
  have hlt : i.toNat < l.length := by omega
  refine ⟨l[i.toNat], ?_, List.getElem_mem _⟩
  rw [index_of_nonneg l i h0, List.getElem?_eq_getElem hlt]

theorem index_replicate {α : Type} (n : Nat) (a : α) (i : Int) (h0 : 0 ≤ i) (hi : i < (n : Int)) :
    index (List.replicate n a) i = some a := by
  obtain ⟨x, hx, hmem⟩ := index_isSome (List.replicate n a) i h0 (by simpa using hi)
  rw [hx, List.eq_of_mem_replicate hmem]

theorem setIndex_eq_some {α : Type} (l : List α) (i : Int) (v : α) (l2 : List α)
    (h : setIndex l i v = some l2) :
    0 ≤ i ∧ i < (l.length : Int) ∧ l2 = l.set i.toNat v := by
  unfold setIndex at h
  split at h
  · cases h
  · split at h
    · cases h
      exact ⟨by omega, by omega, rfl⟩
    · cases h

theorem index_set_self {α : Type} (l : List α) (i : Int) (v : α) (h0 : 0 ≤ i)
    (hi : i < (l.length : Int)) : index (l.set i.toNat v) i = some v := by
  rw [index_of_nonneg _ i h0]
  exact List.getElem?_set_self (by omega)

/-- On a board with `h` rows of `w` cells each, every in-range double index succeeds. -/
theorem cell_isSome (b : Board) (w h : Nat) (hh : b.length = h)
    (hrect : ∀ row ∈ b, row.length = w) (r c : Int)
    (hr0 : 0 ≤ r) (hr : r < (h : Int)) (hc0 : 0 ≤ c) (hc : c < (w : Int)) :
    ∃ t, cell b r c = some t := by
  obtain ⟨row, hrow, hmem⟩ := index_isSome b r hr0 (by omega)
  obtain ⟨t, ht, _⟩ := index_isSome row c hc0 (by rw [hrect row hmem]; exact hc)
  exact ⟨t, by simp [cell, hrow, ht]⟩


/-! ## Board construction -/

theorem newBoard_eq (w h : Int) (t : Token) (hw : 0 ≤ w) (hh : 0 ≤ h) :
    newBoard w h t = some (List.replicate h.toNat (List.replicate w.toNat t)) := by
  unfold newBoard
  rw [if_neg (by omega), if_neg (by omega)]

/-- C10: for `w ≥ 1` and `h ≥ 1`, `newBoard(w, h, t)` returns a board with exactly `h` rows,
every row has exactly `w` cells and every cell equals `t` (both as a member of its row and
when read through the double index `b[r][c]`). -/
theorem newBoard_spec (w h : Int) (t : Token) (hw : 1 ≤ w) (hh : 1 ≤ h) :
    ∃ b, newBoard w h t = some b ∧ (b.length : Int) = h ∧
      (∀ row ∈ b, (row.length : Int) = w ∧ ∀ c ∈ row, c = t) ∧
      (∀ r c : Int, 0 ≤ r → r < h → 0 ≤ c → c < w → cell b r c = some t) := by
  refine ⟨_, newBoard_eq w h t (by omega) (by omega), ?_, ?_, ?_⟩
  · simp only [List.length_replicate]
    omega
  · intro row hrow
    rw [List.eq_of_mem_replicate hrow]
    refine ⟨?_, fun c hc => List.eq_of_mem_replicate hc⟩
    simp only [List.length_replicate]
    omega
  · intro r c hr0 hr hc0 hc
    unfold cell
    rw [index_replicate _ _ r hr0 (by omega)]
    exact index_replicate _ _ c hc0 (by omega)

theorem newBoard_spec_witness :
    ∃ b, newBoard 3 3 NullToken = some b ∧ (b.length : Int) = 3 ∧
      (∀ row ∈ b, (row.length : Int) = 3 ∧ ∀ c ∈ row, c = NullToken) ∧
      (∀ r c : Int, 0 ≤ r → r < 3 → 0 ≤ c → c < 3 → cell b r c = some NullToken) :=
  newBoard_spec 3 3 NullToken (by decide) (by decide)

/-! ## Move validation -/

theorem makeMove_eq_some (b : Board) (m : Move) (p : Player) (b2 : Board)
    (h : makeMove b m p = some b2) :
    ∃ row, index b m.y = some row ∧ 0 ≤ m.y ∧ m.y < (b.length : Int) ∧
      0 ≤ m.x ∧ m.x < (row.length : Int) ∧
      b2 = b.set m.y.toNat (row.set m.x.toNat p.token) := by
  unfold makeMove at h
  cases hrow : index b m.y with
  | none => simp [hrow] at h
  | some row =>
    simp only [hrow, Option.some_bind] at h
    cases hset : setIndex row m.x p.token with
    | none => simp [hset] at h
    | some row2 =>
      simp only [hset, Option.some_bind] at h
      obtain ⟨hx0, hx, hrow2⟩ := setIndex_eq_some _ _ _ _ hset
      obtain ⟨hy0, hy, hb2⟩ := setIndex_eq_some _ _ _ _ h
      exact ⟨row, rfl, hy0, hy, hx0, hx, by rw [hb2, hrow2]⟩

/-- After `makeMove`, the cell `b[m.y][m.x]` holds the player token. -/
theorem cell_makeMove_self (b : Board) (m : Move) (p : Player) (b2 : Board)
    (h : makeMove b m p = some b2) : cell b2 m.y m.x = some p.token := by
  obtain ⟨row, _, hy0, hy, hx0, hx, rfl⟩ := makeMove_eq_some b m p b2 h
  unfold cell
  rw [index_set_self b m.y _ hy0 hy]
  exact index_set_self row m.x _ hx0 hx

theorem isMoveOutOfBounds_of_cell (b : Board) (m : Move) (t : Token)
    (h : cell b m.y m.x = some t) : isMoveOutOfBounds b m = some false := by
  unfold cell at h
  cases hrow : index b m.y with
  | none => simp [hrow] at h
  | some row =>
    simp only [hrow, Option.some_bind] at h
    obtain ⟨_, hy, _, _⟩ := index_eq_some _ _ _ hrow
    obtain ⟨_, hx, _, _⟩ := index_eq_some _ _ _ h
    unfold isMoveOutOfBounds
    rw [if_neg (by omega), hrow]
    simp only [Option.map_some', Option.some.injEq, decide_eq_false_iff_not, not_le]
    exact hx

/-- The value of `isValidMove` on a rectangular board for a move with non-negative
coordinates. -/
theorem isValidMove_eq (b : Board) (w h : Nat) (m : Move) (hh : b.length = h)
    (hrect : ∀ row ∈ b, row.length = w) (hx : 0 ≤ m.x) (hy : 0 ≤ m.y) :
    isValidMove b m
      = some (decide (m.x < (w : Int) ∧ m.y < (h : Int) ∧ cell b m.y m.x = some NullToken)) := by
  by_cases hyh : m.y < (h : Int)
  · obtain ⟨row, hrow, hmem⟩ := index_isSome b m.y hy (by omega)
    have hlen := hrect row hmem
    by_cases hxw : m.x < (w : Int)
    · obtain ⟨t, ht, _⟩ := index_isSome row m.x hx (by omega)
      have hcell : cell b m.y m.x = some t := by simp [cell, hrow, ht]
      unfold isValidMove
      rw [isMoveOutOfBounds_of_cell b m t hcell]
      simp only [Option.some_bind, Bool.false_eq_true, if_false, isMoveTaken, hcell,
        Option.map_some', Option.some.injEq]
      by_cases htn : t = NullToken
      · simp [htn, hxw, hyh]
      · simp [htn, hxw, hyh]
    · unfold isValidMove isMoveOutOfBounds
      rw [if_neg (by omega), hrow]
      have : (row.length : Int) ≤ m.x := by omega
      simp [this, hxw]
  · unfold isValidMove isMoveOutOfBounds
    rw [if_pos (by omega)]
    simp [hyh]

/-- C5: on a rectangular board of width `w` and height `h`, for a move with non-negative
column `x` and row `y`, `isValidMove` returns, and returns true iff `x < w`, `y < h` and
`b[y][x]` is `NullToken`.  In particular it is false when `y ≥ h` or `x ≥ w`, false once
the cell has been set to a non-empty token by `makeMove`, and true for an in-bounds cell
that is still empty. -/
theorem isValidMove_spec (b : Board) (w h : Nat) (m : Move) (hh : b.length = h)
    (hrect : ∀ row ∈ b, row.length = w) (hx : 0 ≤ m.x) (hy : 0 ≤ m.y) :
    isValidMove b m
        = some (decide (m.x < (w : Int) ∧ m.y < (h : Int) ∧ cell b m.y m.x = some NullToken)) ∧
      (((h : Int) ≤ m.y ∨ (w : Int) ≤ m.x) → isValidMove b m = some false) ∧
      (∀ (p : Player) (b2 : Board), p.token ≠ NullToken → makeMove b m p = some b2 →
        isValidMove b2 m = some false) ∧
      (m.x < (w : Int) → m.y < (h : Int) → cell b m.y m.x = some NullToken →
        isValidMove b m = some true) := by
  have heq := isValidMove_eq b w h m hh hrect hx hy
  refine ⟨heq, ?_, ?_, ?_⟩
  · intro hout
    rw [heq]
    have : ¬ (m.x < (w : Int) ∧ m.y < (h : Int) ∧ cell b m.y m.x = some NullToken) := by
      rintro ⟨h1, h2, _⟩
      omega
    simp [this]
  · intro p b2 hp hmk
    have hcell := cell_makeMove_self b m p b2 hmk
    unfold isValidMove
    rw [isMoveOutOfBounds_of_cell b2 m p.token hcell]
    simp [isMoveTaken, hcell, hp]
  · intro h1 h2 h3
    rw [heq]
    simp [h1, h2, h3]

theorem isValidMove_spec_witness :
    isValidMove [[" ", "X"], [" ", " "]] ⟨1, 0⟩
        = some (decide ((1 : Int) < ((2 : Nat) : Int) ∧ (0 : Int) < ((2 : Nat) : Int) ∧
            cell [[" ", "X"], [" ", " "]] 0 1 = some NullToken)) ∧
      ((((2 : Nat) : Int) ≤ (0 : Int) ∨ ((2 : Nat) : Int) ≤ (1 : Int)) →
        isValidMove [[" ", "X"], [" ", " "]] ⟨1, 0⟩ = some false) ∧
      (∀ (p : Player) (b2 : Board), p.token ≠ NullToken →
        makeMove [[" ", "X"], [" ", " "]] ⟨1, 0⟩ p = some b2 →
        isValidMove b2 ⟨1, 0⟩ = some false) ∧
      ((1 : Int) < ((2 : Nat) : Int) → (0 : Int) < ((2 : Nat) : Int) →
        cell [[" ", "X"], [" ", " "]] 0 1 = some NullToken →
        isValidMove [[" ", "X"], [" ", " "]] ⟨1, 0⟩ = some true) :=
  isValidMove_spec [[" ", "X"], [" ", " "]] 2 2 ⟨1, 0⟩ (by decide) (by decide) (by decide)
    (by decide)

/-- C6, as the code has it: on a board built by `newBoard(w, h, t)`, for a move whose
coordinates are both non-negative, `isMoveOutOfBounds` returns and its negation is true
iff `0 ≤ y < h` and `0 ≤ x < w`. -/
theorem isMoveOutOfBounds_nonneg (w h : Int) (t : Token) (b : Board) (m : Move)
    (hb : newBoard w h t = some b) (hx : 0 ≤ m.x) (hy : 0 ≤ m.y) :
    (isMoveOutOfBounds b m).map (fun o => !o)
      = some (decide (0 ≤ m.y ∧ m.y < h ∧ 0 ≤ m.x ∧ m.x < w)) := by
  unfold newBoard at hb
  split at hb
  · cases hb
  · split at hb
    · cases hb
    · rename_i h1 h2
      cases hb
      unfold isMoveOutOfBounds
      simp only [List.length_replicate]
      by_cases hyh : m.y < h
      · rw [if_neg (by omega), index_replicate _ _ m.y hy (by omega)]
        have hw : 0 ≤ w := by
          by_contra hneg
          exact h2 ⟨by omega, by omega⟩
        have hlen : ((List.replicate w.toNat t).length : Int) = w := by
          simp only [List.length_replicate]
          omega
        simp only [Option.map_some', hlen, Option.some.injEq]
        by_cases hxw : m.x < w
        · simp [hxw, hyh, hx, hy]
        · simp [hxw, not_lt.mp hxw]
      · rw [if_pos (by omega)]
        simp [hyh]

theorem isMoveOutOfBounds_nonneg_witness :
    newBoard 3 3 NullToken = some [[" ", " ", " "], [" ", " ", " "], [" ", " ", " "]] ∧
      (isMoveOutOfBounds [[" ", " ", " "], [" ", " ", " "], [" ", " ", " "]] ⟨2, 1⟩).map
          (fun o => !o)
        = some (decide ((0 : Int) ≤ 1 ∧ (1 : Int) < 3 ∧ (0 : Int) ≤ 2 ∧ (2 : Int) < 3)) :=
  ⟨by decide,
    isMoveOutOfBounds_nonneg 3 3 NullToken _ ⟨2, 1⟩ (by decide) (by decide) (by decide)⟩

/-- C6 fails for negative coordinates: on the 3 x 3 board the move with column `-1` and
row `0` passes the in-bounds test although it addresses no cell, and for the move with
row `-1` the test does not return at all (`b[-1]` is indexed). -/
theorem isMoveOutOfBounds_negative :
    ∃ b, newBoard 3 3 NullToken = some b ∧
      (isMoveOutOfBounds b ⟨-1, 0⟩).map (fun o => !o) = some true ∧
      ¬ ((0 : Int) ≤ 0 ∧ (0 : Int) < 3 ∧ (0 : Int) ≤ -1 ∧ (-1 : Int) < 3) ∧
      isMoveOutOfBounds b ⟨0, -1⟩ = none :=
  ⟨[[" ", " ", " "], [" ", " ", " "], [" ", " ", " "]], by decide, by decide, by decide,
    by decide⟩

/-! ## Win detection -/

/-- C3: a line of exactly one coordinate is won on every board, whatever the coordinate
and the cell: the loop of `isWinningLine` starts at index 1 and the board is not read. -/
theorem isWinningLine_singleton (b : Board) (m : Move) : isWinningLine b [m] = some true :=
  rfl

/-- C2 fails on the code: after X at A1, O at A2, X at B1, O at B2, X at C1 the bottom row
holds three X (read as `b[y][x]`, the cells `makeMove` wrote), its line is one of the
lines of `getAllLines`, and `isWinningLine` on that line is false because it reads
`b[x][y]`. -/
theorem isWinningLine_row_misread :
    ∃ b : Board,
      (((((newBoard 3 3 NullToken).bind (fun b0 => makeMove b0 ⟨0, 0⟩ player1)).bind
          (fun b1 => makeMove b1 ⟨0, 1⟩ player2)).bind
          (fun b2 => makeMove b2 ⟨1, 0⟩ player1)).bind
          (fun b3 => makeMove b3 ⟨1, 1⟩ player2)).bind
          (fun b4 => makeMove b4 ⟨2, 0⟩ player1) = some b ∧
      (getAllLines b).map (fun ls => ls[4]?) = some (some [⟨0, 0⟩, ⟨1, 0⟩, ⟨2, 0⟩]) ∧
      (∀ m ∈ [(⟨0, 0⟩ : Move), ⟨1, 0⟩, ⟨2, 0⟩], cell b m.y m.x = some XToken) ∧
      XToken ≠ NullToken ∧
      isWinningLine b [⟨0, 0⟩, ⟨1, 0⟩, ⟨2, 0⟩] = some false :=
  ⟨[["X", "X", "X"], ["O", "O", " "], [" ", " ", " "]], by decide, by decide, by decide,
    by decide, by decide⟩

/-- C4 fails on the code: on the fresh boards of width 3 and height 2, and of width 2 and
height 3, `getAllLines` returns but `isWinner` indexes outside the board. -/
theorem isWinner_panics_non_square :
    (∃ b, newBoard 3 2 NullToken = some b ∧ (getAllLines b).isSome = true ∧
      isWinner b = none) ∧
    (∃ b, newBoard 2 3 NullToken = some b ∧ (getAllLines b).isSome = true ∧
      isWinner b = none) :=
  ⟨⟨[[" ", " ", " "], [" ", " ", " "]], by decide, by decide, by decide⟩,
    ⟨[[" ", " "], [" ", " "], [" ", " "]], by decide, by decide, by decide⟩⟩

/-! ## Grid references -/

theorem run_succ (pos : Nat) (rest : List Char) : gridRefPattern.run (pos + 1, rest) = [] := by
  simp [gridRefPattern, Regex.run]

/-- The pattern starts with `^`: no match starts after the beginning of the text. -/
theorem findFrom_succ (rest : List Char) (pos : Nat) :
    findFrom gridRefPattern (pos + 1) rest = none := by
  induction rest generalizing pos with
  | nil => simp [findFrom, findAt, run_succ]
  | cons c cs ih => simp [findFrom, findAt, run_succ, ih]

theorem findFrom_zero (s : List Char) :
    findFrom gridRefPattern 0 s = findAt gridRefPattern 0 s := by
  cases s with
  | nil => rfl
  | cons c cs =>
    simp only [findFrom, findFrom_succ]
    cases findAt gridRefPattern 0 (c :: cs) <;> rfl

/-- A match at the beginning is the whole text, and exists exactly for the closed form. -/
theorem findAt_zero (s : List Char) :
    findAt gridRefPattern 0 s = if gridRefShape s then some s else none := by
  rcases s with _ | ⟨c, _ | ⟨d, _ | ⟨e, _ | ⟨f, t⟩⟩⟩⟩
  · simp [findAt, gridRefPattern, Regex.run, gridRefShape]
  · cases h1 : inRanges [('a', 'z'), ('A', 'Z')] c <;>
      simp [findAt, gridRefPattern, Regex.run, gridRefShape, h1]
  · cases h1 : inRanges [('a', 'z'), ('A', 'Z')] c <;> cases h2 : inRanges [('1', '9')] d <;>
      simp [findAt, gridRefPattern, Regex.run, gridRefShape, h1, h2]
  · cases h1 : inRanges [('a', 'z'), ('A', 'Z')] c <;> cases h2 : inRanges [('1', '9')] d <;>
      cases h3 : inRanges [('0', '9')] e <;>
      simp [findAt, gridRefPattern, Regex.run, gridRefShape, h1, h2, h3]
  · cases h1 : inRanges [('a', 'z'), ('A', 'Z')] c <;> cases h2 : inRanges [('1', '9')] d <;>
      cases h3 : inRanges [('0', '9')] e <;>
      simp [findAt, gridRefPattern, Regex.run, gridRefShape, h1, h2, h3]

theorem isValidGridRef_eq (s : String) : isValidGridRef s = gridRefShape s.data := by
  unfold isValidGridRef FindString
  rw [findFrom_zero, findAt_zero]
  cases h : gridRefShape s.data
  · simp
  · simp
    intro h0
    have h1 : s.data = [] := congrArg String.data h0
    rw [h1] at h
    simp [gridRefShape] at h

theorem inRanges_letter (c : Char) : inRanges [('a', 'z'), ('A', 'Z')] c = c.isAlpha := by
  simp only [inRanges, Char.isAlpha, Char.isUpper, Char.isLower, List.any_cons, List.any_nil,
    Bool.or_false, Char.toNat]
  rw [Bool.or_comm]
  congr 1 <;> (rw [Bool.eq_iff_iff]; simp [UInt32.le_def]; rfl)

theorem isDigit_eq (c : Char) : c.isDigit = decide (48 ≤ c.toNat ∧ c.toNat ≤ 57) := by
  simp only [Char.isDigit, Char.toNat]
  rw [Bool.eq_iff_iff]; simp [UInt32.le_def]; rfl

theorem inRanges_digit (c : Char) : inRanges [('0', '9')] c = c.isDigit := by
  rw [isDigit_eq]
  simp [inRanges]

theorem inRanges_nonzero_digit (c : Char) :
    inRanges [('1', '9')] c = decide (49 ≤ c.toNat ∧ c.toNat ≤ 57) := by
  simp [inRanges]

theorem char_eq_zero_iff (c : Char) : c = '0' ↔ c.toNat = 48 := by
  constructor
  · rintro rfl
    rfl
  · intro h
    rw [← Char.ofNat_toNat c, h]

/-- The accepted texts: a letter, a digit from 1 to 9, and at most one more digit. -/
theorem gridRefShape_true (l : List Char) (h : gridRefShape l = true) :
    ∃ c d rest, l = c :: d :: rest ∧ c.isAlpha = true ∧ 49 ≤ d.toNat ∧ d.toNat ≤ 57 ∧
      (rest = [] ∨ ∃ e, rest = [e] ∧ 48 ≤ e.toNat ∧ e.toNat ≤ 57) := by
  rcases l with _ | ⟨c, _ | ⟨d, _ | ⟨e, _ | ⟨f, t⟩⟩⟩⟩
  · simp [gridRefShape] at h
  · simp [gridRefShape] at h
  · simp only [gridRefShape, inRanges_letter, inRanges_nonzero_digit, Bool.and_eq_true,
      decide_eq_true_eq] at h
    exact ⟨c, d, [], rfl, h.1, h.2.1, h.2.2, Or.inl rfl⟩
  · simp only [gridRefShape, inRanges_letter, inRanges_nonzero_digit, inRanges_digit,
      isDigit_eq, Bool.and_eq_true, decide_eq_true_eq] at h
    exact ⟨c, d, [e], rfl, h.1.1, h.1.2.1, h.1.2.2, Or.inr ⟨e, rfl, h.2.1, h.2.2⟩⟩
  · simp [gridRefShape] at h

/-- C9, as the code has it: `isValidGridRef(s)` is true iff `s` is exactly one ASCII letter
followed by one or two decimal digits forming a number from 1 to 99, and the first of these
digits is not `0`. -/
theorem isValidGridRef_iff (s : String) :
    isValidGridRef s = (gridRefBySpec s && (s.data.tail.head? != some '0')) := by
  rw [isValidGridRef_eq]
  unfold gridRefBySpec
  rcases s.data with _ | ⟨c, _ | ⟨d, _ | ⟨e, _ | ⟨f, t⟩⟩⟩⟩
  · rfl
  · simp [gridRefShape]
  · simp only [gridRefShape, inRanges_letter, inRanges_nonzero_digit, decimalValue, isDigit_eq]
    rw [Bool.eq_iff_iff]
    cases c.isAlpha
    · simp
    · simp [char_eq_zero_iff, isDigit_eq]
      omega
  · simp only [gridRefShape, inRanges_letter, inRanges_nonzero_digit, inRanges_digit,
      decimalValue, isDigit_eq]
    rw [Bool.eq_iff_iff]
    cases c.isAlpha
    · simp
    · simp [char_eq_zero_iff, isDigit_eq]
      omega
  · simp [gridRefShape]

/-- C9 fails on a leading zero: "A01" is one letter followed by two decimal digits forming
the number 1, and `isValidGridRef` rejects it (as it does "a09"). -/
theorem isValidGridRef_leading_zero :
    gridRefBySpec "A01" = true ∧ isValidGridRef "A01" = false ∧
      gridRefBySpec "a09" = true ∧ isValidGridRef "a09" = false := by
  decide

/-- C8: `isValidGridRef` is false for the empty string, for a text whose first character is
not an ASCII letter, for a text starting with two letters, for a letter followed by no
digit (nothing, or a character that is no digit), for a letter followed by digits forming
the number 0, for a letter followed by three or more digits, and for a text with any
character that is neither an ASCII letter nor a decimal digit. -/
theorem isValidGridRef_rejects (s : String)
    (h : s = ""
      ∨ (∃ c rest, s.data = c :: rest ∧ c.isAlpha = false)
      ∨ (∃ c1 c2 rest, s.data = c1 :: c2 :: rest ∧ c1.isAlpha = true ∧ c2.isAlpha = true)
      ∨ (∃ c rest, s.data = c :: rest ∧ c.isAlpha = true ∧
          ∀ d, rest.head? = some d → d.isDigit = false)
      ∨ (∃ c ds, s.data = c :: ds ∧ c.isAlpha = true ∧ ds.all Char.isDigit = true ∧
          decimalValue ds = 0)
      ∨ (∃ c ds, s.data = c :: ds ∧ c.isAlpha = true ∧ ds.all Char.isDigit = true ∧
          3 ≤ ds.length)
      ∨ (∃ ch, ch ∈ s.data ∧ ch.isAlpha = false ∧ ch.isDigit = false)) :
    isValidGridRef s = false := by
  rw [isValidGridRef_eq]
  cases hs : gridRefShape s.data with
  | false => rfl
  | true =>
    exfalso
    obtain ⟨c, d, rest, hl, hc, hd1, hd2, hrest⟩ := gridRefShape_true s.data hs
    have hdd : d.isDigit = true := by
      rw [isDigit_eq]
      simp only [decide_eq_true_eq]
      omega
    have hdalpha : d.isAlpha = false := by
      simp only [Char.isAlpha, Char.isUpper, Char.isLower, Bool.or_eq_false_iff,
        Bool.and_eq_false_iff, decide_eq_false_iff_not, UInt32.le_def, ge_iff_le]
      have : d.val.toNat = d.toNat := rfl
      constructor
      · left
        show ¬ (65 ≤ d.val.toNat)
        omega
      · left
        show ¬ (97 ≤ d.val.toNat)
        omega
    rcases h with h | ⟨c1, r1, h1, h2⟩ | ⟨c1, c2, r1, h1, h2, h3⟩ | ⟨c1, r1, h1, _, h3⟩ |
      ⟨c1, ds, h1, _, h3, h4⟩ | ⟨c1, ds, h1, _, _, h4⟩ | ⟨ch, hmem, h2, h3⟩
    · rw [h] at hl
      cases hl
    · rw [hl] at h1
      cases h1
      rw [hc] at h2
      cases h2
    · rw [hl] at h1
      cases h1
      rw [hdalpha] at h3
      cases h3
    · rw [hl] at h1
      cases h1
      have := h3 d rfl
      rw [hdd] at this
      cases this
    · rw [hl] at h1
      cases h1
      rcases hrest with rfl | ⟨e, rfl, he1, he2⟩
      · simp only [decimalValue, List.foldl_cons, List.foldl_nil] at h4
        omega
      · simp only [decimalValue, List.foldl_cons, List.foldl_nil] at h4
        omega
    · rw [hl] at h1
      cases h1
      rcases hrest with rfl | ⟨e, rfl, _, _⟩
      · simp at h4
      · simp at h4
    · rw [hl] at hmem
      have hall : ∀ x ∈ c :: d :: rest, x.isAlpha = true ∨ x.isDigit = true := by
        intro x hx
        rcases hrest with rfl | ⟨e, rfl, he1, he2⟩
        · simp only [List.mem_cons, List.mem_singleton, List.not_mem_nil, or_false] at hx
          rcases hx with rfl | rfl
          · exact Or.inl hc
          · exact Or.inr hdd
        · simp only [List.mem_cons, List.mem_singleton, List.not_mem_nil, or_false] at hx
          rcases hx with rfl | rfl | rfl
          · exact Or.inl hc
          · exact Or.inr hdd
          · right
            rw [isDigit_eq]
            simp only [decide_eq_true_eq]
            omega
      rcases hall ch hmem with h5 | h5
      · rw [h2] at h5
        cases h5
      · rw [h3] at h5
        cases h5

theorem isValidGridRef_rejects_witness :
    isValidGridRef "" = false ∧ isValidGridRef "1A" = false ∧ isValidGridRef "AA1" = false ∧
      isValidGridRef "A" = false ∧ isValidGridRef "A0" = false ∧
      isValidGridRef "A123" = false ∧ isValidGridRef "A1\n" = false :=
  ⟨isValidGridRef_rejects "" (Or.inl rfl),
    isValidGridRef_rejects "1A" (Or.inr (Or.inl ⟨'1', ['A'], rfl, by decide⟩)),
    isValidGridRef_rejects "AA1"
      (Or.inr (Or.inr (Or.inl ⟨'A', 'A', ['1'], rfl, by decide, by decide⟩))),
    isValidGridRef_rejects "A"
      (Or.inr (Or.inr (Or.inr (Or.inl ⟨'A', [], rfl, by decide, by simp⟩)))),
    isValidGridRef_rejects "A0"
      (Or.inr (Or.inr (Or.inr (Or.inr (Or.inl ⟨'A', ['0'], rfl, by decide, by decide,
        by decide⟩))))),
    isValidGridRef_rejects "A123"
      (Or.inr (Or.inr (Or.inr (Or.inr (Or.inr (Or.inl ⟨'A', ['1', '2', '3'], rfl, by decide,
        by decide, by decide⟩)))))),
    isValidGridRef_rejects "A1\n"
      (Or.inr (Or.inr (Or.inr (Or.inr (Or.inr (Or.inr ⟨'\n', by decide, by decide,
        by decide⟩))))))⟩

theorem numeral_shape (n : Nat) (h1 : 1 ≤ n) (h99 : n ≤ 99) :
    ∃ d rest, (Nat.repr n).data = d :: rest ∧ inRanges [('1', '9')] d = true ∧
      (rest = [] ∨ ∃ e, rest = [e] ∧ inRanges [('0', '9')] e = true) := by
  interval_cases n <;>
    first
    | exact ⟨_, _, rfl, by decide, Or.inl rfl⟩
    | exact ⟨_, _, rfl, by decide, Or.inr ⟨_, rfl, by decide⟩⟩

theorem Atoi_numeral (n : Nat) (h1 : 1 ≤ n) (h99 : n ≤ 99) :
    Atoi (Nat.repr n).data = ((n : Int), true) := by
  interval_cases n <;> decide

theorem upper_letter (toUpperCase : Int → Int) (i : Nat) (hi : i < 26) :
    inRanges [('a', 'z'), ('A', 'Z')] (Char.ofNat (65 + i)) = true ∧
      charToInt toUpperCase ((Char.ofNat (65 + i)).toNat) = i := by
  interval_cases i <;> exact ⟨rfl, rfl⟩

theorem lower_letter (toUpperCase : Int → Int) (i : Nat) (hi : i < 26) :
    inRanges [('a', 'z'), ('A', 'Z')] (Char.ofNat (97 + i)) = true ∧
      charToInt toUpperCase ((Char.ofNat (97 + i)).toNat) = i := by
  interval_cases i <;> exact ⟨rfl, rfl⟩

theorem gridRef_letter_numeral (toUpperCase : Int → Int) (c : Char) (i n : Nat)
    (hc : inRanges [('a', 'z'), ('A', 'Z')] c = true)
    (hci : charToInt toUpperCase c.toNat = i) (h1 : 1 ≤ n) (h99 : n ≤ 99) :
    isValidGridRef (String.mk (c :: (Nat.repr n).data)) = true ∧
      gridRefToMove toUpperCase (String.mk (c :: (Nat.repr n).data))
        = some (Move.mk i ((n : Int) - 1)) := by
  constructor
  · rw [isValidGridRef_eq]
    obtain ⟨d, rest, hd, hd19, hrest⟩ := numeral_shape n h1 h99
    simp only [hd]
    rcases hrest with rfl | ⟨e, rfl, he⟩
    · simp [gridRefShape, hc, hd19]
    · simp [gridRefShape, hc, hd19, he]
  · simp only [gridRefToMove, hci, Atoi_numeral n h1 h99]
    have : wrapInt64 ((n : Int) - 1) = (n : Int) - 1 := by
      unfold wrapInt64
      omega
    rw [this]

/-- C7: for the letter at position `i` of the alphabet (`i < 26`), in upper case
(`Char.ofNat (65 + i)`, from 'A') or lower case (`Char.ofNat (97 + i)`, from 'a'), and every
`n` from 1 to 99, the letter followed by the decimal numeral of `n` is accepted by
`isValidGridRef` and `gridRefToMove` returns the move with `x = i` and `y = n - 1`; the two
spellings parse to the same move. -/
theorem gridRefToMove_roundtrip (toUpperCase : Int → Int) (i n : Nat) (hi : i < 26)
    (h1 : 1 ≤ n) (h99 : n ≤ 99) :
    isValidGridRef (String.mk (Char.ofNat (65 + i) :: (Nat.repr n).data)) = true ∧
      isValidGridRef (String.mk (Char.ofNat (97 + i) :: (Nat.repr n).data)) = true ∧
      gridRefToMove toUpperCase (String.mk (Char.ofNat (65 + i) :: (Nat.repr n).data))
        = some (Move.mk i ((n : Int) - 1)) ∧
      gridRefToMove toUpperCase (String.mk (Char.ofNat (97 + i) :: (Nat.repr n).data))
        = some (Move.mk i ((n : Int) - 1)) ∧
      gridRefToMove toUpperCase (String.mk (Char.ofNat (97 + i) :: (Nat.repr n).data))
        = gridRefToMove toUpperCase (String.mk (Char.ofNat (65 + i) :: (Nat.repr n).data)) := by
  obtain ⟨hu1, hu2⟩ := upper_letter toUpperCase i hi
  obtain ⟨hl1, hl2⟩ := lower_letter toUpperCase i hi
  obtain ⟨hA, hB⟩ := gridRef_letter_numeral toUpperCase _ i n hu1 hu2 h1 h99
  obtain ⟨hC, hD⟩ := gridRef_letter_numeral toUpperCase _ i n hl1 hl2 h1 h99
  exact ⟨hA, hC, hB, hD, by rw [hB, hD]⟩

theorem gridRefToMove_roundtrip_witness :
    String.mk (Char.ofNat (65 + 2) :: (Nat.repr 12).data) = "C12" ∧
      String.mk (Char.ofNat (97 + 2) :: (Nat.repr 12).data) = "c12" ∧
      isValidGridRef "C12" = true ∧ isValidGridRef "c12" = true ∧
      gridRefToMove (fun r => r) "C12" = some (Move.mk 2 11) ∧
      gridRefToMove (fun r => r) "c12" = some (Move.mk 2 11) :=
  have h := gridRefToMove_roundtrip (fun r => r) 2 12 (by decide) (by decide) (by decide)
  ⟨by decide, by decide, h.1, h.2.1, h.2.2.1, h.2.2.2.1⟩

/-! ## Win detection on square boards -/

/-- When every cell the loop reads exists, the loop returns, and returns true iff every
remaining coordinate reads the token of the first one and that token is not empty. -/
theorem isWinningLineFrom_eq (b : Board) (f : Move) (tf : Token)
    (hf : cell b f.x f.y = some tf) (ms : List Move)
    (hall : ∀ m ∈ ms, ∃ t, cell b m.x m.y = some t) :
    ∃ r, isWinningLineFrom b f ms = some r ∧
      (r = true ↔ ∀ m ∈ ms, cell b m.x m.y = some tf ∧ tf ≠ NullToken) := by
  induction ms with
  | nil => exact ⟨true, rfl, by simp⟩
  | cons m ms ih =>
    obtain ⟨t, ht⟩ := hall m (List.mem_cons_self _ _)
    obtain ⟨r, hr, hiff⟩ := ih (fun m2 hm2 => hall m2 (List.mem_cons_of_mem _ hm2))
    by_cases hcond : t = tf ∧ t ≠ NullToken
    · obtain ⟨h1, h2⟩ := hcond
      subst h1
      refine ⟨r, ?_, ?_⟩
      · simp only [isWinningLineFrom, ht, hf, Option.some_bind]
        rw [if_neg (by simp [h2])]
        exact hr
      · rw [hiff]
        simp only [List.mem_cons, forall_eq_or_imp, ht]
        constructor
        · intro h
          exact ⟨⟨trivial, h2⟩, h⟩
        · intro h
          exact h.2
    · refine ⟨false, ?_, ?_⟩
      · simp only [isWinningLineFrom, ht, hf, Option.some_bind]
        rw [if_pos]
        simp only [Bool.or_eq_true, bne_iff_ne, ne_eq, beq_iff_eq]
        by_cases h1 : t = tf
        · right
          by_contra h2
          exact hcond ⟨h1, h2⟩
        · left
          exact h1
      · simp only [Bool.false_eq_true, List.mem_cons, forall_eq_or_imp, ht, Option.some.injEq,
          false_iff, not_and]
        intro h
        exfalso
        exact hcond ⟨h.1, h.1 ▸ h.2⟩

/-- On a line of at least two coordinates whose reads all succeed, `isWinningLine` returns,
and returns true iff all the cells it reads hold one token that is not empty. -/
theorem isWinningLine_eq (b : Board) (l : List Move) (h2 : 2 ≤ l.length)
    (hall : ∀ m ∈ l, ∃ t, cell b m.x m.y = some t) :
    ∃ r, isWinningLine b l = some r ∧
      (r = true ↔ ∃ t, t ≠ NullToken ∧ ∀ m ∈ l, cell b m.x m.y = some t) := by
  rcases l with _ | ⟨f, _ | ⟨m1, ms⟩⟩
  · simp at h2
  · simp at h2
  · obtain ⟨tf, hf⟩ := hall f (List.mem_cons_self _ _)
    obtain ⟨r, hr, hiff⟩ := isWinningLineFrom_eq b f tf hf (m1 :: ms)
      (fun m hm => hall m (List.mem_cons_of_mem _ hm))
    refine ⟨r, hr, ?_⟩
    rw [hiff]
    constructor
    · intro h
      refine ⟨tf, (h m1 (List.mem_cons_self _ _)).2, ?_⟩
      intro m hm
      rcases List.mem_cons.mp hm with rfl | hm2
      · exact hf
      · exact (h m hm2).1
    · rintro ⟨t, htn, ht⟩ m hm
      have hft := ht f (List.mem_cons_self _ _)
      rw [hf] at hft
      cases hft
      exact ⟨ht m (List.mem_cons_of_mem _ hm), htn⟩

/-- When `isWinningLine` returns on every line, the loop of `isWinner` returns, and returns
true iff one of the lines is a winning line. -/
theorem isWinnerLoop_eq (b : Board) (ls : List (List Move))
    (hall : ∀ l ∈ ls, ∃ r, isWinningLine b l = some r) :
    ∃ r, isWinnerLoop b ls = some r ∧
      (r = true ↔ ∃ l ∈ ls, isWinningLine b l = some true) := by
  induction ls with
  | nil => exact ⟨false, rfl, by simp⟩
  | cons l ls ih =>
    obtain ⟨w, hw⟩ := hall l (List.mem_cons_self _ _)
    obtain ⟨r, hr, hiff⟩ := ih (fun l2 hl2 => hall l2 (List.mem_cons_of_mem _ hl2))
    cases w with
    | true =>
      refine ⟨true, by simp [isWinnerLoop, hw], ?_⟩
      simp only [true_iff]
      exact ⟨l, List.mem_cons_self _ _, hw⟩
    | false =>
      refine ⟨r, by simp [isWinnerLoop, hw, hr], ?_⟩
      rw [hiff]
      simp only [List.mem_cons, exists_eq_or_imp, hw, Option.some.injEq, Bool.false_eq_true,
        false_or]

theorem two_le_length_of_mem {α : Type} (l : List α) (a c : α) (ha : a ∈ l) (hc : c ∈ l)
    (hne : a ≠ c) : 2 ≤ l.length := by
  rcases l with _ | ⟨x, _ | ⟨y, t⟩⟩
  · simp at ha
  · simp only [List.mem_singleton] at ha hc
    exact absurd (ha.trans hc.symm) hne
  · simp

/-! ## The lines of `getAllLines` -/

theorem mem_linesOf (width height : Nat) (l : List Move) :
    l ∈ linesOf width height ↔
      (∃ x, x < width ∧ l = columnLine height x) ∨
      l = (List.range width).flatMap (mainDiagonalPart width height) ∨
      (∃ y, y < height ∧ l = rowLine width y) ∨
      l = (List.range height).flatMap (antiDiagonalPart width) := by
  simp only [linesOf, List.mem_append, List.mem_map, List.mem_range, List.mem_singleton]
  constructor
  · rintro (((⟨x, hx, rfl⟩ | h) | ⟨y, hy, rfl⟩) | h)
    · exact Or.inl ⟨x, hx, rfl⟩
    · exact Or.inr (Or.inl h)
    · exact Or.inr (Or.inr (Or.inl ⟨y, hy, rfl⟩))
    · exact Or.inr (Or.inr (Or.inr h))
  · rintro (⟨x, hx, rfl⟩ | h | ⟨y, hy, rfl⟩ | h)
    · exact Or.inl (Or.inl (Or.inl ⟨x, hx, rfl⟩))
    · exact Or.inl (Or.inl (Or.inr h))
    · exact Or.inl (Or.inr ⟨y, hy, rfl⟩)
    · exact Or.inr h

theorem mem_columnLine (height x : Nat) (m : Move) :
    m ∈ columnLine height x ↔ ∃ y : Nat, y < height ∧ m = Move.mk x y := by
  simp only [columnLine, List.mem_map, List.mem_range]
  constructor
  · rintro ⟨y, hy, rfl⟩
    exact ⟨y, hy, rfl⟩
  · rintro ⟨y, hy, rfl⟩
    exact ⟨y, hy, rfl⟩

theorem mem_rowLine (width y : Nat) (m : Move) :
    m ∈ rowLine width y ↔ ∃ x : Nat, x < width ∧ m = Move.mk x y := by
  simp only [rowLine, List.mem_map, List.mem_range]
  constructor
  · rintro ⟨x, hx, rfl⟩
    exact ⟨x, hx, rfl⟩
  · rintro ⟨x, hx, rfl⟩
    exact ⟨x, hx, rfl⟩

theorem mem_mainDiagonal (width height : Nat) (m : Move) :
    m ∈ (List.range width).flatMap (mainDiagonalPart width height) ↔
      ∃ x y : Nat, x < width ∧ y < height ∧ (y : Int) + x = (width : Int) - 1 ∧
        m = Move.mk x y := by
  simp only [List.mem_flatMap, mainDiagonalPart, List.mem_map, List.mem_filter, List.mem_range,
    decide_eq_true_eq]
  constructor
  · rintro ⟨x, hx, y, ⟨hy, hxy⟩, rfl⟩
    exact ⟨x, y, hx, hy, hxy, rfl⟩
  · rintro ⟨x, y, hx, hy, hxy, rfl⟩
    exact ⟨x, hx, y, ⟨hy, hxy⟩, rfl⟩

theorem mem_antiDiagonal (width height : Nat) (m : Move) :
    m ∈ (List.range height).flatMap (antiDiagonalPart width) ↔
      ∃ x y : Nat, x < width ∧ y < height ∧ y = x ∧ m = Move.mk x y := by
  simp only [List.mem_flatMap, antiDiagonalPart, List.mem_map, List.mem_filter, List.mem_range,
    decide_eq_true_eq]
  constructor
  · rintro ⟨y, hy, x, ⟨hx, hxy⟩, rfl⟩
    exact ⟨x, y, hx, hy, hxy, rfl⟩
  · rintro ⟨x, y, hx, hy, hxy, rfl⟩
    exact ⟨y, hy, x, ⟨hx, hxy⟩, rfl⟩

/-- Every line of an `n` x `n` board (`n ≥ 2`) has at least two coordinates, all with
column and row below `n`. -/
theorem linesOf_square_line (n : Nat) (hn : 2 ≤ n) (l : List Move) (hl : l ∈ linesOf n n) :
    2 ≤ l.length ∧ ∀ m ∈ l, ∃ x y : Nat, x < n ∧ y < n ∧ m = Move.mk x y := by
  rcases (mem_linesOf n n l).mp hl with ⟨x, hx, rfl⟩ | rfl | ⟨y, hy, rfl⟩ | rfl
  · constructor
    · simp only [columnLine, List.length_map, List.length_range]
      exact hn
    · intro m hm
      obtain ⟨y, hy, rfl⟩ := (mem_columnLine n x m).mp hm
      exact ⟨x, y, hx, hy, rfl⟩
  · constructor
    · apply two_le_length_of_mem _ (Move.mk (0 : Nat) (n - 1 : Nat)) (Move.mk (n - 1 : Nat) (0 : Nat))
      · exact (mem_mainDiagonal n n _).mpr ⟨0, n - 1, by omega, by omega, by omega, rfl⟩
      · exact (mem_mainDiagonal n n _).mpr ⟨n - 1, 0, by omega, by omega, by omega, rfl⟩
      · intro h
        injection h with h1 h2
        omega
    · intro m hm
      obtain ⟨x, y, hx, hy, _, rfl⟩ := (mem_mainDiagonal n n m).mp hm
      exact ⟨x, y, hx, hy, rfl⟩
  · constructor
    · simp only [rowLine, List.length_map, List.length_range]
      exact hn
    · intro m hm
      obtain ⟨x, hx, rfl⟩ := (mem_rowLine n y m).mp hm
      exact ⟨x, y, hx, hy, rfl⟩
  · constructor
    · apply two_le_length_of_mem _ (Move.mk (0 : Nat) (0 : Nat)) (Move.mk (1 : Nat) (1 : Nat))
      · exact (mem_antiDiagonal n n _).mpr ⟨0, 0, by omega, by omega, rfl, rfl⟩
      · exact (mem_antiDiagonal n n _).mpr ⟨1, 1, by omega, by omega, rfl, rfl⟩
      · intro h
        injection h with h1 h2
        omega
    · intro m hm
      obtain ⟨x, y, hx, hy, _, rfl⟩ := (mem_antiDiagonal n n m).mp hm
      exact ⟨x, y, hx, hy, rfl⟩

/-- Read through `b[x][y]`, as `isWinningLine` does, the lines of an `n` x `n` board are the
rows, the columns and the two diagonals of the board read through `b[y][x]`. -/
theorem exists_line_iff_hasFullLine (b : Board) (n : Nat) :
    (∃ l ∈ linesOf n n, ∃ t, t ≠ NullToken ∧ ∀ m ∈ l, cell b m.x m.y = some t) ↔
      hasFullLine b n := by
  constructor
  · rintro ⟨l, hl, t, htn, ht⟩
    refine ⟨t, htn, ?_⟩
    rcases (mem_linesOf n n l).mp hl with ⟨x, hx, rfl⟩ | rfl | ⟨y, hy, rfl⟩ | rfl
    · left
      refine ⟨x, hx, fun y hy => ?_⟩
      exact ht (Move.mk x y) ((mem_columnLine n x _).mpr ⟨y, hy, rfl⟩)
    · right; right; right
      intro i hi
      have hmem : Move.mk (i : Nat) (n - 1 - i : Nat) ∈
          (List.range n).flatMap (mainDiagonalPart n n) :=
        (mem_mainDiagonal n n _).mpr ⟨i, n - 1 - i, hi, by omega, by omega, rfl⟩
      have hcast : ((n - 1 - i : Nat) : Int) = (n : Int) - 1 - i := by omega
      have := ht _ hmem
      simp only [hcast] at this
      exact this
    · right; left
      refine ⟨y, hy, fun x hx => ?_⟩
      exact ht (Move.mk x y) ((mem_rowLine n y _).mpr ⟨x, hx, rfl⟩)
    · right; right; left
      intro i hi
      exact ht (Move.mk i i) ((mem_antiDiagonal n n _).mpr ⟨i, i, hi, hi, rfl, rfl⟩)
  · rintro ⟨t, htn, hrow | hcol | hdiag | hanti⟩
    · obtain ⟨y, hy, h⟩ := hrow
      refine ⟨columnLine n y, (mem_linesOf n n _).mpr (Or.inl ⟨y, hy, rfl⟩), t, htn, ?_⟩
      intro m hm
      obtain ⟨x, hx, rfl⟩ := (mem_columnLine n y m).mp hm
      exact h x hx
    · obtain ⟨x, hx, h⟩ := hcol
      refine ⟨rowLine n x, (mem_linesOf n n _).mpr (Or.inr (Or.inr (Or.inl ⟨x, hx, rfl⟩))),
        t, htn, ?_⟩
      intro m hm
      obtain ⟨y, hy, rfl⟩ := (mem_rowLine n x m).mp hm
      exact h y hy
    · refine ⟨_, (mem_linesOf n n _).mpr (Or.inr (Or.inr (Or.inr rfl))), t, htn, ?_⟩
      intro m hm
      obtain ⟨x, y, hx, _, hxy, rfl⟩ := (mem_antiDiagonal n n m).mp hm
      subst hxy
      exact hdiag y hx
    · refine ⟨_, (mem_linesOf n n _).mpr (Or.inr (Or.inl rfl)), t, htn, ?_⟩
      intro m hm
      obtain ⟨x, y, hx, hy, hxy, rfl⟩ := (mem_mainDiagonal n n m).mp hm
      have := hanti x hx
      have hcast : (n : Int) - 1 - x = (y : Int) := by omega
      rw [hcast] at this
      exact this

/-- C1: on a square board of `n ≥ 2` rows of `n` cells each, whatever the cells hold,
`isWinner` returns, and returns true iff some full row, some full column or one of the two
full diagonals of the board, read through `b[y][x]`, consists of `n` equal tokens different
from `NullToken`. -/
theorem isWinner_square (b : Board) (n : Nat) (hn : 2 ≤ n) (hlen : b.length = n)
    (hrect : ∀ row ∈ b, row.length = n) :
    ∃ r, isWinner b = some r ∧ (r = true ↔ hasFullLine b n) := by
  obtain ⟨row0, h0, hmem0⟩ := index_isSome b 0 (le_refl 0) (by omega)
  have hlines : getAllLines b = some (linesOf n n) := by
    simp only [getAllLines, h0, Option.map_some', hrect row0 hmem0, hlen]
  have hline : ∀ l ∈ linesOf n n, ∃ r, isWinningLine b l = some r ∧
      (r = true ↔ ∃ t, t ≠ NullToken ∧ ∀ m ∈ l, cell b m.x m.y = some t) := by
    intro l hl
    obtain ⟨h2, hcoords⟩ := linesOf_square_line n hn l hl
    apply isWinningLine_eq b l h2
    intro m hm
    obtain ⟨x, y, hx, hy, rfl⟩ := hcoords m hm
    exact cell_isSome b n n hlen hrect x y (by omega) (by omega) (by omega) (by omega)
  obtain ⟨r, hr, hiff⟩ := isWinnerLoop_eq b (linesOf n n)
    (fun l hl => (hline l hl).imp (fun _ h => h.1))
  refine ⟨r, by simp only [isWinner, hlines, Option.some_bind, hr], ?_⟩
  rw [hiff, ← exists_line_iff_hasFullLine]
  constructor
  · rintro ⟨l, hl, hw⟩
    obtain ⟨r2, hr2, hiff2⟩ := hline l hl
    rw [hr2] at hw
    cases hw
    exact ⟨l, hl, hiff2.mp rfl⟩
  · rintro ⟨l, hl, hw⟩
    obtain ⟨r2, hr2, hiff2⟩ := hline l hl
    refine ⟨l, hl, ?_⟩
    rw [hr2, hiff2.mpr hw]

theorem isWinner_square_witness :
    ∃ r, isWinner [["X", "O", "X"], ["O", "X", "O"], ["X", " ", " "]] = some r ∧
      (r = true ↔ hasFullLine [["X", "O", "X"], ["O", "X", "O"], ["X", " ", " "]] 3) :=
  isWinner_square [["X", "O", "X"], ["O", "X", "O"], ["X", " ", " "]] 3 (by decide)
    (by decide) (by decide)

/-! ## The frame of `makeMove` -/

theorem index_set_ne {α : Type} (l : List α) (i j : Int) (v : α) (hj : 0 ≤ j) (hne : i ≠ j) :
    index (l.set j.toNat v) i = index l i := by
  unfold index
  split
  · rfl
  · exact List.getElem?_set_ne (by omega)

theorem makeMove_isSome (b : Board) (m : Move) (p : Player) (t : Token)
    (hcell : cell b m.y m.x = some t) : ∃ b2, makeMove b m p = some b2 := by
  unfold cell at hcell
  cases hrow : index b m.y with
  | none => simp [hrow] at hcell
  | some row =>
    simp only [hrow, Option.some_bind] at hcell
    obtain ⟨hy0, hy, _, _⟩ := index_eq_some _ _ _ hrow
    obtain ⟨hx0, hx, _, _⟩ := index_eq_some _ _ _ hcell
    refine ⟨b.set m.y.toNat (row.set m.x.toNat p.token), ?_⟩
    unfold makeMove
    simp only [hrow, Option.some_bind, setIndex]
    rw [if_neg (by omega), if_pos (by omega)]
    simp only [Option.some_bind]
    rw [if_neg (by omega), if_pos (by omega)]

/-- Every cell but the one played is read the same before and after `makeMove`. -/
theorem cell_makeMove_other (b : Board) (m : Move) (p : Player) (b2 : Board)
    (h : makeMove b m p = some b2) (r c : Int) (hne : r ≠ m.y ∨ c ≠ m.x) :
    cell b2 r c = cell b r c := by
  obtain ⟨row, hrow, hy0, hy, hx0, hx, rfl⟩ := makeMove_eq_some b m p b2 h
  unfold cell
  by_cases hr : r = m.y
  · subst hr
    have hc : c ≠ m.x := by
      rcases hne with h1 | h1
      · exact absurd rfl h1
      · exact h1
    rw [index_set_self b m.y _ hy0 hy, hrow]
    simp only [Option.some_bind]
    exact index_set_ne row c m.x _ hx0 hc
  · rw [index_set_ne b r m.y _ hy0 hr]

/-- The rows keep their lengths under `makeMove`. -/
theorem rowLength_makeMove (b : Board) (m : Move) (p : Player) (b2 : Board)
    (h : makeMove b m p = some b2) (r : Int) :
    (index b2 r).map List.length = (index b r).map List.length := by
  obtain ⟨row, hrow, hy0, hy, hx0, hx, rfl⟩ := makeMove_eq_some b m p b2 h
  by_cases hr : r = m.y
  · subst hr
    rw [index_set_self b m.y _ hy0 hy, hrow]
    simp
  · rw [index_set_ne b r m.y _ hy0 hr]

theorem length_makeMove (b : Board) (m : Move) (p : Player) (b2 : Board)
    (h : makeMove b m p = some b2) : b2.length = b.length := by
  obtain ⟨row, _, _, _, _, _, rfl⟩ := makeMove_eq_some b m p b2 h
  simp

/-- On the board of lists, for a move addressing an existing cell of `b`, `makeMove` returns
a board with the same number of rows and the same row lengths, whose cell at row `m.y`,
column `m.x` is the token of `p`, and whose every other cell is the cell of `b` at that
position. -/
theorem makeMove_frame (b : Board) (m : Move) (p : Player) (t : Token)
    (hcell : cell b m.y m.x = some t) :
    ∃ b2, makeMove b m p = some b2 ∧ b2.length = b.length ∧
      (∀ r : Int, (index b2 r).map List.length = (index b r).map List.length) ∧
      cell b2 m.y m.x = some p.token ∧
      (∀ r c : Int, (r ≠ m.y ∨ c ≠ m.x) → cell b2 r c = cell b r c) := by
  obtain ⟨b2, h⟩ := makeMove_isSome b m p t hcell
  exact ⟨b2, h, length_makeMove b m p b2 h, rowLength_makeMove b m p b2 h,
    cell_makeMove_self b m p b2 h, cell_makeMove_other b m p b2 h⟩

theorem makeMove_frame_witness :
    ∃ b2, makeMove [["X", " "], [" ", " "], ["O", " "]] ⟨1, 2⟩ player1 = some b2 ∧
      b2.length = [["X", " "], [" ", " "], ["O", " "]].length ∧
      (∀ r : Int, (index b2 r).map List.length
        = (index [["X", " "], [" ", " "], ["O", " "]] r).map List.length) ∧
      cell b2 2 1 = some player1.token ∧
      (∀ r c : Int, (r ≠ 2 ∨ c ≠ 1) →
        cell b2 r c = cell [["X", " "], [" ", " "], ["O", " "]] r c) :=
  makeMove_frame [["X", " "], [" ", " "], ["O", " "]] ⟨1, 2⟩ player1 " " (by decide)

/-! ## Shape of the result of `getAllLines` -/

theorem length_linesOf (width height : Nat) :
    (linesOf width height).length = width + height + 2 := by
  simp only [linesOf, List.length_append, List.length_map, List.length_range,
    List.length_singleton]
  omega

/-- On a rectangular board with at least one row the lines depend on the dimensions only. -/
theorem getAllLines_eq (b : Board) (w h : Nat) (hh : 1 ≤ h) (hlen : b.length = h)
    (hrect : ∀ row ∈ b, row.length = w) : getAllLines b = some (linesOf w h) := by
  obtain ⟨row0, h0, hmem0⟩ := index_isSome b 0 (le_refl 0) (by omega)
  simp only [getAllLines, h0, Option.map_some', hrect row0 hmem0, hlen]

theorem linesOf_column_at (width height x : Nat) (hx : x < width) :
    (linesOf width height)[x]? = some (columnLine height x) := by
  unfold linesOf
  rw [List.getElem?_append_left (by simp; omega), List.getElem?_append_left (by simp; omega),
    List.getElem?_append_left (by simp; omega), List.getElem?_map, List.getElem?_range hx]
  rfl

theorem linesOf_mainDiagonal_at (width height : Nat) :
    (linesOf width height)[width]?
      = some ((List.range width).flatMap (mainDiagonalPart width height)) := by
  unfold linesOf
  rw [List.getElem?_append_left (by simp), List.getElem?_append_left (by simp),
    List.getElem?_append_right (by simp)]
  simp

theorem linesOf_row_at (width height y : Nat) (hy : y < height) :
    (linesOf width height)[width + 1 + y]? = some (rowLine width y) := by
  unfold linesOf
  rw [List.getElem?_append_left (by simp; omega), List.getElem?_append_right (by simp)]
  simp only [List.length_append, List.length_map, List.length_range, List.length_singleton,
    Nat.add_sub_cancel_left, List.getElem?_map, List.getElem?_range hy]
  rfl

theorem linesOf_antiDiagonal_at (width height : Nat) :
    (linesOf width height)[width + height + 1]?
      = some ((List.range height).flatMap (antiDiagonalPart width)) := by
  unfold linesOf
  rw [List.getElem?_append_right (by simp; omega)]
  have : width + height + 1
      - ((List.map (columnLine height) (List.range width)
        ++ [(List.range width).flatMap (mainDiagonalPart width height)]
        ++ List.map (rowLine width) (List.range height)).length) = 0 := by
    simp; omega
  rw [this]
  rfl

theorem move_mk_inj_right (x : Int) : Function.Injective (fun (y : Nat) => Move.mk x y) := by
  intro y1 y2 h
  injection h with _ h2
  exact_mod_cast h2

theorem move_mk_inj_left (y : Int) : Function.Injective (fun (x : Nat) => Move.mk x y) := by
  intro x1 x2 h
  injection h with h1 _
  exact_mod_cast h1

/-- No coordinate is collected twice by the first pass. -/
theorem nodup_mainDiagonal (width height : Nat) :
    ((List.range width).flatMap (mainDiagonalPart width height)).Nodup := by
  rw [List.nodup_flatMap]
  constructor
  · intro x _
    exact ((List.nodup_range height).filter _).map (move_mk_inj_right x)
  · apply (List.nodup_range width).pairwise_of_forall_ne
    intro x1 _ x2 _ hne
    show List.Disjoint _ _
    rw [List.disjoint_left]
    intro m h1 h2
    simp only [mainDiagonalPart, List.mem_map, List.mem_filter] at h1 h2
    obtain ⟨y1, _, rfl⟩ := h1
    obtain ⟨y2, _, h⟩ := h2
    injection h with hx _
    exact hne (by exact_mod_cast hx.symm)

/-- No coordinate is collected twice by the second pass. -/
theorem nodup_antiDiagonal (width height : Nat) :
    ((List.range height).flatMap (antiDiagonalPart width)).Nodup := by
  rw [List.nodup_flatMap]
  constructor
  · intro y _
    exact ((List.nodup_range width).filter _).map (move_mk_inj_left y)
  · apply (List.nodup_range height).pairwise_of_forall_ne
    intro y1 _ y2 _ hne
    show List.Disjoint _ _
    rw [List.disjoint_left]
    intro m h1 h2
    simp only [antiDiagonalPart, List.mem_map, List.mem_filter] at h1 h2
    obtain ⟨x1, _, rfl⟩ := h1
    obtain ⟨x2, _, h⟩ := h2
    injection h with _ hy
    exact hne (by exact_mod_cast hy.symm)

theorem length_mainDiagonal (width height : Nat) :
    ((List.range width).flatMap (mainDiagonalPart width height)).length
      = min width height := by
  have hnd : ((List.range (min width height)).map
      (fun (k : Nat) => Move.mk ((width - 1 - k : Nat) : Int) k)).Nodup := by
    apply (List.nodup_range _).map
    intro k1 k2 h
    injection h with _ h2
    exact_mod_cast h2
  have hperm := (List.perm_ext_iff_of_nodup (nodup_mainDiagonal width height) hnd).mpr (by
    intro m
    rw [mem_mainDiagonal]
    simp only [List.mem_map, List.mem_range]
    constructor
    · rintro ⟨x, y, hx, hy, hxy, rfl⟩
      refine ⟨y, by omega, ?_⟩
      have : ((width - 1 - y : Nat) : Int) = (x : Int) := by omega
      rw [this]
    · rintro ⟨k, hk, rfl⟩
      exact ⟨width - 1 - k, k, by omega, by omega, by omega, rfl⟩)
  rw [hperm.length_eq]
  simp

theorem length_antiDiagonal (width height : Nat) :
    ((List.range height).flatMap (antiDiagonalPart width)).length = min width height := by
  have hnd : ((List.range (min width height)).map
      (fun (k : Nat) => Move.mk (k : Int) k)).Nodup := by
    apply (List.nodup_range _).map
    intro k1 k2 h
    injection h with _ h2
    exact_mod_cast h2
  have hperm := (List.perm_ext_iff_of_nodup (nodup_antiDiagonal width height) hnd).mpr (by
    intro m
    rw [mem_antiDiagonal]
    simp only [List.mem_map, List.mem_range]
    constructor
    · rintro ⟨x, y, hx, hy, hxy, rfl⟩
      subst hxy
      exact ⟨y, by omega, rfl⟩
    · rintro ⟨k, hk, rfl⟩
      exact ⟨k, k, by omega, by omega, rfl, rfl⟩)
  rw [hperm.length_eq]
  simp

theorem linesOf_coords (width height : Nat) (l : List Move) (hl : l ∈ linesOf width height)
    (m : Move) (hm : m ∈ l) : ∃ x y : Nat, x < width ∧ y < height ∧ m = Move.mk x y := by
  rcases (mem_linesOf width height l).mp hl with ⟨x, hx, rfl⟩ | rfl | ⟨y, hy, rfl⟩ | rfl
  · obtain ⟨y, hy, rfl⟩ := (mem_columnLine height x m).mp hm
    exact ⟨x, y, hx, hy, rfl⟩
  · obtain ⟨x, y, hx, hy, _, rfl⟩ := (mem_mainDiagonal width height m).mp hm
    exact ⟨x, y, hx, hy, rfl⟩
  · obtain ⟨x, hx, rfl⟩ := (mem_rowLine width y m).mp hm
    exact ⟨x, y, hx, hy, rfl⟩
  · obtain ⟨x, y, hx, hy, _, rfl⟩ := (mem_antiDiagonal width height m).mp hm
    exact ⟨x, y, hx, hy, rfl⟩

theorem columnLine_at (height x y : Nat) (hy : y < height) :
    (columnLine height x)[y]? = some (Move.mk x y) := by
  simp [columnLine, List.getElem?_range hy]

theorem rowLine_at (width x y : Nat) (hx : x < width) :
    (rowLine width y)[x]? = some (Move.mk x y) := by
  simp [rowLine, List.getElem?_range hx]

/-- C12: on a rectangular board of width `w ≥ 1` and height `h ≥ 1`, `getAllLines` returns
exactly `w + h + 2` lines; for each column `x < w` the line at index `x` has `h` coordinates,
the one at position `y` being `(x, y)`; for each row `y < h` the line at index `w + 1 + y`
has `w` coordinates, the one at position `x` being `(x, y)`; and every board of the same
dimensions gets the same lines. -/
theorem getAllLines_columns_rows (b : Board) (w h : Nat) (hw : 1 ≤ w) (hh : 1 ≤ h)
    (hlen : b.length = h) (hrect : ∀ row ∈ b, row.length = w) :
    ∃ ls, getAllLines b = some ls ∧ ls.length = w + h + 2 ∧
      (∀ x : Nat, x < w → ∃ col, ls[x]? = some col ∧ col ∈ ls ∧ col.length = h ∧
        ∀ y : Nat, y < h → col[y]? = some (Move.mk x y)) ∧
      (∀ y : Nat, y < h → ∃ row, ls[w + 1 + y]? = some row ∧ row ∈ ls ∧ row.length = w ∧
        ∀ x : Nat, x < w → row[x]? = some (Move.mk x y)) ∧
      (∀ b2 : Board, b2.length = h → (∀ row ∈ b2, row.length = w) →
        getAllLines b2 = some ls) := by
  have _ := hw
  refine ⟨linesOf w h, getAllLines_eq b w h hh hlen hrect, length_linesOf w h, ?_, ?_, ?_⟩
  · intro x hx
    have hat := linesOf_column_at w h x hx
    exact ⟨columnLine h x, hat, List.getElem?_mem hat, by simp [columnLine],
      fun y hy => columnLine_at h x y hy⟩
  · intro y hy
    have hat := linesOf_row_at w h y hy
    exact ⟨rowLine w y, hat, List.getElem?_mem hat, by simp [rowLine],
      fun x hx => rowLine_at w x y hx⟩
  · intro b2 hlen2 hrect2
    exact getAllLines_eq b2 w h hh hlen2 hrect2

theorem getAllLines_columns_rows_witness :
    ∃ ls, getAllLines [["X", " ", "O"], [" ", " ", " "]] = some ls ∧ ls.length = 3 + 2 + 2 ∧
      (∀ x : Nat, x < 3 → ∃ col, ls[x]? = some col ∧ col ∈ ls ∧ col.length = 2 ∧
        ∀ y : Nat, y < 2 → col[y]? = some (Move.mk x y)) ∧
      (∀ y : Nat, y < 2 → ∃ row, ls[3 + 1 + y]? = some row ∧ row ∈ ls ∧ row.length = 3 ∧
        ∀ x : Nat, x < 3 → row[x]? = some (Move.mk x y)) ∧
      (∀ b2 : Board, b2.length = 2 → (∀ row ∈ b2, row.length = 3) →
        getAllLines b2 = some ls) :=
  getAllLines_columns_rows [["X", " ", "O"], [" ", " ", " "]] 3 2 (by decide) (by decide)
    (by decide) (by decide)

/-- C13: on a rectangular board of width `w ≥ 1` and height `h ≥ 1`, the `w + h + 2` lines
of `getAllLines` are the `w` columns at indices `0 .. w-1`, the `h` rows at indices
`w+1 .. w+h`, and two more: the line at index `w` holds exactly the coordinates with
`0 ≤ x < w`, `0 ≤ y < h` and `x + y = w - 1`, each once, and the last line, at index
`w + h + 1`, exactly those with `0 ≤ x < w`, `0 ≤ y < h` and `y = x`, each once. -/
theorem getAllLines_diagonals (b : Board) (w h : Nat) (hw : 1 ≤ w) (hh : 1 ≤ h)
    (hlen : b.length = h) (hrect : ∀ row ∈ b, row.length = w) :
    ∃ ls d1 d2, getAllLines b = some ls ∧ ls.length = w + h + 2 ∧
      (∀ x : Nat, x < w → ls[x]? = some (columnLine h x)) ∧
      (∀ y : Nat, y < h → ls[w + 1 + y]? = some (rowLine w y)) ∧
      ls[w]? = some d1 ∧ ls[w + h + 1]? = some d2 ∧ d1.Nodup ∧ d2.Nodup ∧
      (∀ m : Move, m ∈ d1 ↔
        (0 ≤ m.x ∧ m.x < w ∧ 0 ≤ m.y ∧ m.y < h ∧ m.x + m.y = (w : Int) - 1)) ∧
      (∀ m : Move, m ∈ d2 ↔ (0 ≤ m.x ∧ m.x < w ∧ 0 ≤ m.y ∧ m.y < h ∧ m.y = m.x)) := by
  have _ := hw
  refine ⟨linesOf w h, _, _, getAllLines_eq b w h hh hlen hrect, length_linesOf w h,
    fun x hx => linesOf_column_at w h x hx, fun y hy => linesOf_row_at w h y hy,
    linesOf_mainDiagonal_at w h, linesOf_antiDiagonal_at w h, nodup_mainDiagonal w h,
    nodup_antiDiagonal w h, ?_, ?_⟩
  · intro m
    rw [mem_mainDiagonal]
    constructor
    · rintro ⟨x, y, hx, hy, hxy, rfl⟩
      simp only
      omega
    · rintro ⟨h1, h2, h3, h4, h5⟩
      refine ⟨m.x.toNat, m.y.toNat, by omega, by omega, by omega, ?_⟩
      cases m with
      | mk mx my =>
        simp only at h1 h3
        simp only [Int.toNat_of_nonneg h1, Int.toNat_of_nonneg h3]
  · intro m
    rw [mem_antiDiagonal]
    constructor
    · rintro ⟨x, y, hx, hy, hxy, rfl⟩
      simp only
      omega
    · rintro ⟨h1, h2, h3, h4, h5⟩
      refine ⟨m.x.toNat, m.y.toNat, by omega, by omega, by omega, ?_⟩
      cases m with
      | mk mx my =>
        simp only at h1 h3
        simp only [Int.toNat_of_nonneg h1, Int.toNat_of_nonneg h3]

theorem getAllLines_diagonals_witness :
    ∃ ls d1 d2, getAllLines [["X", " ", "O"], [" ", " ", " "]] = some ls ∧
      ls.length = 3 + 2 + 2 ∧
      (∀ x : Nat, x < 3 → ls[x]? = some (columnLine 2 x)) ∧
      (∀ y : Nat, y < 2 → ls[3 + 1 + y]? = some (rowLine 3 y)) ∧
      ls[3]? = some d1 ∧ ls[3 + 2 + 1]? = some d2 ∧ d1.Nodup ∧ d2.Nodup ∧
      (∀ m : Move, m ∈ d1 ↔
        (0 ≤ m.x ∧ m.x < (3 : Nat) ∧ 0 ≤ m.y ∧ m.y < (2 : Nat) ∧
          m.x + m.y = ((3 : Nat) : Int) - 1)) ∧
      (∀ m : Move, m ∈ d2 ↔
        (0 ≤ m.x ∧ m.x < (3 : Nat) ∧ 0 ≤ m.y ∧ m.y < (2 : Nat) ∧ m.y = m.x)) :=
  getAllLines_diagonals [["X", " ", "O"], [" ", " ", " "]] 3 2 (by decide) (by decide)
    (by decide) (by decide)

/-- C14: on an `n` x `n` board with `n ≥ 1`, `getAllLines` returns exactly `2n + 2` lines
and every one of them has exactly `n` coordinates. -/
theorem getAllLines_square (b : Board) (n : Nat) (hn : 1 ≤ n) (hlen : b.length = n)
    (hrect : ∀ row ∈ b, row.length = n) :
    ∃ ls, getAllLines b = some ls ∧ ls.length = 2 * n + 2 ∧ ∀ l ∈ ls, l.length = n := by
  refine ⟨linesOf n n, getAllLines_eq b n n hn hlen hrect, ?_, ?_⟩
  · rw [length_linesOf]
    omega
  · intro l hl
    rcases (mem_linesOf n n l).mp hl with ⟨x, _, rfl⟩ | rfl | ⟨y, _, rfl⟩ | rfl
    · simp [columnLine]
    · rw [length_mainDiagonal, Nat.min_self]
    · simp [rowLine]
    · rw [length_antiDiagonal, Nat.min_self]

theorem getAllLines_square_witness :
    ∃ ls, getAllLines [[" ", " ", " "], [" ", " ", " "], [" ", " ", " "]] = some ls ∧
      ls.length = 8 ∧ ∀ l ∈ ls, l.length = 3 :=
  getAllLines_square [[" ", " ", " "], [" ", " ", " "], [" ", " ", " "]] 3 (by decide)
    (by decide) (by decide)

/-- C20: on a rectangular board of width `w ≥ 1` and height `h ≥ 1`, every coordinate of
every line of `getAllLines` has `0 ≤ x < w` and `0 ≤ y < h`, and each of the two diagonal
lines (at indices `w` and `w + h + 1`) has exactly `min w h` coordinates. -/
theorem getAllLines_in_bounds (b : Board) (w h : Nat) (hw : 1 ≤ w) (hh : 1 ≤ h)
    (hlen : b.length = h) (hrect : ∀ row ∈ b, row.length = w) :
    ∃ ls d1 d2, getAllLines b = some ls ∧
      (∀ l ∈ ls, ∀ m ∈ l, 0 ≤ m.x ∧ m.x < w ∧ 0 ≤ m.y ∧ m.y < h) ∧
      ls[w]? = some d1 ∧ ls[w + h + 1]? = some d2 ∧
      d1.length = min w h ∧ d2.length = min w h ∧ d1.length = d2.length := by
  have _ := hw
  refine ⟨linesOf w h, _, _, getAllLines_eq b w h hh hlen hrect, ?_,
    linesOf_mainDiagonal_at w h, linesOf_antiDiagonal_at w h, length_mainDiagonal w h,
    length_antiDiagonal w h, by rw [length_mainDiagonal, length_antiDiagonal]⟩
  intro l hl m hm
  obtain ⟨x, y, hx, hy, rfl⟩ := linesOf_coords w h l hl m hm
  simp only
  omega

theorem getAllLines_in_bounds_witness :
    ∃ ls d1 d2, getAllLines [["X", " ", "O"], [" ", " ", " "]] = some ls ∧
      (∀ l ∈ ls, ∀ m ∈ l, 0 ≤ m.x ∧ m.x < (3 : Nat) ∧ 0 ≤ m.y ∧ m.y < (2 : Nat)) ∧
      ls[3]? = some d1 ∧ ls[3 + 2 + 1]? = some d2 ∧
      d1.length = min 3 2 ∧ d2.length = min 3 2 ∧ d1.length = d2.length :=
  getAllLines_in_bounds [["X", " ", "O"], [" ", " ", " "]] 3 2 (by decide) (by decide)
    (by decide) (by decide)

/-! ## Column labels and parsed moves -/

/-- The ASCII letters are the 26 characters from 'A' and the 26 characters from 'a'. -/
theorem isAlpha_cases (c : Char) (hc : c.isAlpha = true) :
    ∃ i : Nat, i < 26 ∧ (c = Char.ofNat (65 + i) ∨ c = Char.ofNat (97 + i)) := by
  rw [← inRanges_letter] at hc
  simp only [inRanges, List.any_cons, List.any_nil, Bool.or_false, Bool.or_eq_true,
    decide_eq_true_eq] at hc
  have h97 : ('a' : Char).toNat = 97 := rfl
  have h122 : ('z' : Char).toNat = 122 := rfl
  have h65 : ('A' : Char).toNat = 65 := rfl
  have h90 : ('Z' : Char).toNat = 90 := rfl
  rw [h97, h122, h65, h90] at hc
  rcases hc with hlow | hup
  · refine ⟨c.toNat - 97, by omega, Or.inr ?_⟩
    have : 97 + (c.toNat - 97) = c.toNat := by omega
    rw [this, Char.ofNat_toNat]
  · refine ⟨c.toNat - 65, by omega, Or.inl ?_⟩
    have : 65 + (c.toNat - 65) = c.toNat := by omega
    rw [this, Char.ofNat_toNat]

/-- C17: for `0 ≤ i ≤ 25`, `intToChar(i)` is the letter at position `i` of the upper-case
alphabet and `charToInt(intToChar(i)) = i`; for every ASCII letter `c`,
`intToChar(charToInt(c))` is the upper-case form of `c`. -/
theorem intToChar_charToInt (toUpperCase : Int → Int) (i : Int) (c : Char)
    (hi0 : 0 ≤ i) (hi25 : i ≤ 25) (hc : c.isAlpha = true) :
    "ABCDEFGHIJKLMNOPQRSTUVWXYZ".data[i.toNat]? = some (Char.ofNat (intToChar i).toNat) ∧
      charToInt toUpperCase (intToChar i) = i ∧
      intToChar (charToInt toUpperCase c.toNat) = c.toUpper.toNat := by
  refine ⟨?_, ?_, ?_⟩
  · interval_cases i <;> rfl
  · interval_cases i <;> rfl
  · obtain ⟨k, hk, rfl | rfl⟩ := isAlpha_cases c hc
    · interval_cases k <;> rfl
    · interval_cases k <;> rfl

theorem intToChar_charToInt_witness :
    "ABCDEFGHIJKLMNOPQRSTUVWXYZ".data[(2 : Int).toNat]? = some 'C' ∧
      charToInt (fun r => r) (intToChar 2) = 2 ∧
      intToChar (charToInt (fun r => r) ('c' : Char).toNat) = ('C' : Char).toNat :=
  intToChar_charToInt (fun r => r) 2 'c' (by decide) (by decide) (by decide)

theorem charToInt_letter_range (toUpperCase : Int → Int) (c : Char) (hc : c.isAlpha = true) :
    0 ≤ charToInt toUpperCase c.toNat ∧ charToInt toUpperCase c.toNat ≤ 25 := by
  obtain ⟨k, hk, rfl | rfl⟩ := isAlpha_cases c hc
  · rw [(upper_letter toUpperCase k hk).2]
    omega
  · rw [(lower_letter toUpperCase k hk).2]
    omega

/-- The digits of an accepted grid reference parse to a number from 1 to 99. -/
theorem Atoi_grid_digits (d : Char) (rest : List Char) (hd1 : 49 ≤ d.toNat)
    (hd2 : d.toNat ≤ 57)
    (hrest : rest = [] ∨ ∃ e, rest = [e] ∧ 48 ≤ e.toNat ∧ e.toNat ≤ 57) :
    1 ≤ (Atoi (d :: rest)).1 ∧ (Atoi (d :: rest)).1 ≤ 99 := by
  obtain ⟨k, hk1, hk2, rfl⟩ : ∃ k, 49 ≤ k ∧ k ≤ 57 ∧ d = Char.ofNat k :=
    ⟨d.toNat, hd1, hd2, (Char.ofNat_toNat d).symm⟩
  rcases hrest with rfl | ⟨e, rfl, he1, he2⟩
  · interval_cases k <;> decide
  · obtain ⟨j, hj1, hj2, rfl⟩ : ∃ j, 48 ≤ j ∧ j ≤ 57 ∧ e = Char.ofNat j :=
      ⟨e.toNat, he1, he2, (Char.ofNat_toNat e).symm⟩
    interval_cases k <;> interval_cases j <;> decide

/-- An accepted grid reference parses, to a column from 0 to 25 and a row from 0 to 98. -/
theorem gridRefToMove_of_valid (toUpperCase : Int → Int) (s : String)
    (hs : isValidGridRef s = true) :
    ∃ m, gridRefToMove toUpperCase s = some m ∧ 0 ≤ m.x ∧ m.x ≤ 25 ∧ 0 ≤ m.y ∧ m.y ≤ 98 := by
  rw [isValidGridRef_eq] at hs
  obtain ⟨c, d, rest, hl, hc, hd1, hd2, hrest⟩ := gridRefShape_true s.data hs
  obtain ⟨hx0, hx25⟩ := charToInt_letter_range toUpperCase c hc
  obtain ⟨hy1, hy99⟩ := Atoi_grid_digits d rest hd1 hd2 hrest
  refine ⟨Move.mk (charToInt toUpperCase c.toNat) (wrapInt64 ((Atoi (d :: rest)).1 - 1)),
    by simp only [gridRefToMove, hl], hx0, hx25, ?_, ?_⟩
  · simp only [wrapInt64]
    omega
  · simp only [wrapInt64]
    omega

/-- For a move with non-negative coordinates `isValidMove` returns on every board. -/
theorem isValidMove_total (b : Board) (m : Move) (hx : 0 ≤ m.x) (hy : 0 ≤ m.y) :
    ∃ r, isValidMove b m = some r := by
  by_cases hyh : (b.length : Int) ≤ m.y
  · exact ⟨false, by simp [isValidMove, isMoveOutOfBounds, hyh]⟩
  · obtain ⟨row, hrow, _⟩ := index_isSome b m.y hy (by omega)
    by_cases hxw : (row.length : Int) ≤ m.x
    · exact ⟨false, by simp [isValidMove, isMoveOutOfBounds, hyh, hrow, hxw]⟩
    · obtain ⟨t, ht, _⟩ := index_isSome row m.x hx (by omega)
      exact ⟨!(t != NullToken),
        by simp [isValidMove, isMoveOutOfBounds, hyh, hrow, hxw, isMoveTaken, cell, ht]⟩

theorem isValidMove_of_outOfBounds (b : Board) (m : Move)
    (h : isMoveOutOfBounds b m = some true) : isValidMove b m = some false := by
  simp [isValidMove, h]

theorem cell_of_inBounds (b : Board) (m : Move) (hx : 0 ≤ m.x)
    (h : isMoveOutOfBounds b m = some false) : ∃ t, cell b m.y m.x = some t := by
  unfold isMoveOutOfBounds at h
  split at h
  · cases h
  · cases hrow : index b m.y with
    | none => simp [hrow] at h
    | some row =>
      simp only [hrow, Option.map_some', Option.some.injEq, decide_eq_false_iff_not,
        not_le] at h
      obtain ⟨t, ht, _⟩ := index_isSome row m.x hx h
      exact ⟨t, by simp [cell, hrow, ht]⟩

/-- C16: a string accepted by `isValidGridRef` parses to a move with `0 ≤ x ≤ 25` and
`0 ≤ y ≤ 98`, and on every board (so on those built by `newBoard` and changed by
`makeMove`) `isValidMove` on that move returns without an out-of-range index: a row at or
past `len(b)` is reported out of bounds without reading `b[m.y]`, an out-of-bounds move is
rejected without evaluating `isMoveTaken`, and when the move is in bounds the cell
`isMoveTaken` reads exists. -/
theorem isValidMove_parsed (toUpperCase : Int → Int) (s : String)
    (hs : isValidGridRef s = true) :
    ∃ m, gridRefToMove toUpperCase s = some m ∧ 0 ≤ m.x ∧ m.x ≤ 25 ∧ 0 ≤ m.y ∧ m.y ≤ 98 ∧
      ∀ b : Board, (∃ r, isValidMove b m = some r) ∧
        ((b.length : Int) ≤ m.y → isMoveOutOfBounds b m = some true) ∧
        (isMoveOutOfBounds b m = some true → isValidMove b m = some false) ∧
        (isMoveOutOfBounds b m = some false → ∃ t, cell b m.y m.x = some t) := by
  obtain ⟨m, hm, hx0, hx25, hy0, hy98⟩ := gridRefToMove_of_valid toUpperCase s hs
  refine ⟨m, hm, hx0, hx25, hy0, hy98, fun b => ⟨isValidMove_total b m hx0 hy0, ?_,
    isValidMove_of_outOfBounds b m, cell_of_inBounds b m hx0⟩⟩
  intro hlen
  simp [isMoveOutOfBounds, hlen]

theorem isValidMove_parsed_witness :
    ∃ m, gridRefToMove (fun r => r) "z99" = some m ∧ 0 ≤ m.x ∧ m.x ≤ 25 ∧ 0 ≤ m.y ∧
      m.y ≤ 98 ∧
      ∀ b : Board, (∃ r, isValidMove b m = some r) ∧
        ((b.length : Int) ≤ m.y → isMoveOutOfBounds b m = some true) ∧
        (isMoveOutOfBounds b m = some true → isValidMove b m = some false) ∧
        (isMoveOutOfBounds b m = some false → ∃ t, cell b m.y m.x = some t) :=
  isValidMove_parsed (fun r => r) "z99" (by decide)

/-! ## One turn of the game -/

/-- A move that passes `isValidMove` is in bounds and its cell holds `NullToken`. -/
theorem isValidMove_true (b : Board) (m : Move) (h : isValidMove b m = some true) :
    isMoveOutOfBounds b m = some false ∧ cell b m.y m.x = some NullToken := by
  unfold isValidMove at h
  cases ho : isMoveOutOfBounds b m with
  | none => simp [ho] at h
  | some o =>
    cases o with
    | true => simp [ho] at h
    | false =>
      refine ⟨rfl, ?_⟩
      simp only [ho, Option.some_bind, Bool.false_eq_true, if_false, isMoveTaken] at h
      cases hc : cell b m.y m.x with
      | none => simp [hc] at h
      | some t =>
        simp only [hc, Option.map_some', Option.some.injEq, Bool.not_eq_true',
          bne_eq_false_iff_eq] at h
        rw [h]

theorem getMove_cons_rejected (toUpperCase : Int → Int) (b : Board) (p : Player)
    (r : String) (rest : List String) (hr : rejectedInput toUpperCase b r = true) :
    getMove toUpperCase b p (r :: rest) = getMove toUpperCase b p rest := by
  unfold rejectedInput at hr
  by_cases hv : isValidGridRef r = true
  · simp only [hv, Bool.not_true, Bool.false_or, beq_iff_eq] at hr
    cases hm : gridRefToMove toUpperCase r with
    | none => simp [hm] at hr
    | some m =>
      simp only [hm, Option.some_bind] at hr
      simp only [getMove, hv, if_true, hm, hr]
  · simp only [getMove, hv, Bool.false_eq_true, if_false]

theorem getMove_append_rejected (toUpperCase : Int → Int) (b : Board) (p : Player)
    (pre rest : List String) (hpre : ∀ r ∈ pre, rejectedInput toUpperCase b r = true) :
    getMove toUpperCase b p (pre ++ rest) = getMove toUpperCase b p rest := by
  induction pre with
  | nil => rfl
  | cons r pre ih =>
    rw [List.cons_append, getMove_cons_rejected toUpperCase b p r _
      (hpre r (List.mem_cons_self _ _))]
    exact ih (fun r2 hr2 => hpre r2 (List.mem_cons_of_mem _ hr2))

theorem getMove_cons_accepted (toUpperCase : Int → Int) (b : Board) (p : Player)
    (s : String) (rest : List String) (hs : acceptedInput toUpperCase b s = true) :
    ∃ m, gridRefToMove toUpperCase s = some m ∧ isValidMove b m = some true ∧
      getMove toUpperCase b p (s :: rest) = .value m := by
  unfold acceptedInput at hs
  simp only [Bool.and_eq_true, beq_iff_eq] at hs
  obtain ⟨hv, hb⟩ := hs
  cases hm : gridRefToMove toUpperCase s with
  | none => simp [hm] at hb
  | some m =>
    simp only [hm, Option.some_bind] at hb
    exact ⟨m, rfl, hb, by simp only [getMove, hv, if_true, hm, hb]⟩

/-- The move `getMove` returns passed `isValidMove` on the board of the turn. -/
theorem getMove_value (toUpperCase : Int → Int) (b : Board) (p : Player)
    (inputs : List String) (m : Move) (h : getMove toUpperCase b p inputs = .value m) :
    isValidMove b m = some true := by
  induction inputs with
  | nil => simp [getMove] at h
  | cons gr rest ih =>
    unfold getMove at h
    split at h
    · split at h
      · cases h
      · split at h
        · cases h
        · rename_i m2 _ hv
          cases h
          exact hv
        · exact ih h
    · exact ih h

/-- No input makes `getMove` index out of range. -/
theorem getMove_ne_panic (toUpperCase : Int → Int) (b : Board) (p : Player)
    (inputs : List String) : getMove toUpperCase b p inputs ≠ .panic := by
  induction inputs with
  | nil => simp [getMove]
  | cons gr rest ih =>
    unfold getMove
    split
    · rename_i hv
      obtain ⟨m, hm, hx0, _, hy0, _⟩ := gridRefToMove_of_valid toUpperCase gr hv
      obtain ⟨r, hr⟩ := isValidMove_total b m hx0 hy0
      rw [hm]
      simp only [hr]
      cases r with
      | true => simp
      | false => exact ih
    · exact ih

/-- When `turn` returns a board, it is the board of `makeMove` at a move that passed
`isValidMove`. -/
theorem turn_value (toUpperCase : Int → Int) (b : Board) (p : Player)
    (inputs : List String) (b2 : Board) (h : turn toUpperCase b p inputs = .value b2) :
    ∃ m, getMove toUpperCase b p inputs = .value m ∧ isValidMove b m = some true ∧
      makeMove b m p = some b2 := by
  unfold turn at h
  split at h
  · rename_i m hg
    split at h
    · rename_i b3 hmk
      cases h
      exact ⟨m, hg, getMove_value toUpperCase b p inputs m hg, hmk⟩
    · cases h
  · cases h
  · cases h

theorem turn_of_getMove (toUpperCase : Int → Int) (b : Board) (p : Player)
    (inputs : List String) (m : Move) (h : getMove toUpperCase b p inputs = .value m) :
    ∃ b2, makeMove b m p = some b2 ∧ turn toUpperCase b p inputs = .value b2 := by
  have hv := getMove_value toUpperCase b p inputs m h
  obtain ⟨b2, hb2⟩ := makeMove_isSome b m p NullToken (isValidMove_true b m hv).2
  exact ⟨b2, hb2, by simp only [turn, h, hb2]⟩

theorem turn_ne_panic (toUpperCase : Int → Int) (b : Board) (p : Player)
    (inputs : List String) : turn toUpperCase b p inputs ≠ .panic := by
  cases hg : getMove toUpperCase b p inputs with
  | value m =>
    obtain ⟨b2, _, ht⟩ := turn_of_getMove toUpperCase b p inputs m hg
    rw [ht]
    simp
  | panic => exact absurd hg (getMove_ne_panic toUpperCase b p inputs)
  | waiting => simp [turn, hg]

/-- C15: in one turn, inputs that fail `isValidGridRef` or whose move fails `isValidMove`
are not applied (alone they leave the turn waiting, and before an accepted input they
change nothing); the move applied is the one parsed from the first input that passes both
checks, and only its cell changes.  Hence whenever a turn returns a board, `makeMove` wrote
one cell that was in bounds and held `NullToken`, every non-empty cell is kept, and no
input makes the turn index out of range. -/
theorem turn_spec (toUpperCase : Int → Int) (b : Board) (p : Player)
    (pre : List String) (s : String) (post : List String)
    (hpre : ∀ r ∈ pre, rejectedInput toUpperCase b r = true)
    (hs : acceptedInput toUpperCase b s = true) :
    turn toUpperCase b p pre = .waiting ∧
      (∃ m b2, gridRefToMove toUpperCase s = some m ∧
        getMove toUpperCase b p (pre ++ s :: post) = .value m ∧
        makeMove b m p = some b2 ∧
        turn toUpperCase b p (pre ++ s :: post) = .value b2 ∧
        isMoveOutOfBounds b m = some false ∧ cell b m.y m.x = some NullToken ∧
        ∀ r c : Int, (r ≠ m.y ∨ c ≠ m.x) → cell b2 r c = cell b r c) ∧
      (∀ (inputs : List String) (b3 : Board), turn toUpperCase b p inputs = .value b3 →
        ∃ m, isValidMove b m = some true ∧ isMoveOutOfBounds b m = some false ∧
          cell b m.y m.x = some NullToken ∧ makeMove b m p = some b3 ∧
          ∀ (r c : Int) (t : Token), cell b r c = some t → t ≠ NullToken →
            cell b3 r c = some t) ∧
      (∀ inputs : List String, turn toUpperCase b p inputs ≠ .panic) := by
  refine ⟨?_, ?_, ?_, turn_ne_panic toUpperCase b p⟩
  · have h := getMove_append_rejected toUpperCase b p pre [] hpre
    rw [List.append_nil] at h
    simp only [turn, h, getMove]
  · obtain ⟨m, hm, hv, hg⟩ := getMove_cons_accepted toUpperCase b p s post hs
    have hg2 : getMove toUpperCase b p (pre ++ s :: post) = .value m := by
      rw [getMove_append_rejected toUpperCase b p pre _ hpre, hg]
    obtain ⟨b2, hb2, ht⟩ := turn_of_getMove toUpperCase b p _ m hg2
    obtain ⟨hin, hnull⟩ := isValidMove_true b m hv
    exact ⟨m, b2, hm, hg2, hb2, ht, hin, hnull, cell_makeMove_other b m p b2 hb2⟩
  · intro inputs b3 ht
    obtain ⟨m, _, hv, hmk⟩ := turn_value toUpperCase b p inputs b3 ht
    obtain ⟨hin, hnull⟩ := isValidMove_true b m hv
    refine ⟨m, hv, hin, hnull, hmk, ?_⟩
    intro r c t hcell htn
    rw [cell_makeMove_other b m p b3 hmk r c ?_]
    · exact hcell
    · by_contra hcon
      simp only [not_or, not_not] at hcon
      rw [hcon.1, hcon.2, hnull] at hcell
      cases hcell
      exact htn rfl

theorem turn_spec_witness :
    turn (fun r => r) [["X", " ", " "], [" ", " ", " "], [" ", " ", " "]] player2
        ["hello", "A0", "D1", "A1"] = .waiting ∧
      (∃ m b2, gridRefToMove (fun r => r) "b1" = some m ∧
        getMove (fun r => r) [["X", " ", " "], [" ", " ", " "], [" ", " ", " "]] player2
          (["hello", "A0", "D1", "A1"] ++ "b1" :: ["C3"]) = .value m ∧
        makeMove [["X", " ", " "], [" ", " ", " "], [" ", " ", " "]] m player2 = some b2 ∧
        turn (fun r => r) [["X", " ", " "], [" ", " ", " "], [" ", " ", " "]] player2
          (["hello", "A0", "D1", "A1"] ++ "b1" :: ["C3"]) = .value b2 ∧
        isMoveOutOfBounds [["X", " ", " "], [" ", " ", " "], [" ", " ", " "]] m
          = some false ∧
        cell [["X", " ", " "], [" ", " ", " "], [" ", " ", " "]] m.y m.x = some NullToken ∧
        ∀ r c : Int, (r ≠ m.y ∨ c ≠ m.x) →
          cell b2 r c = cell [["X", " ", " "], [" ", " ", " "], [" ", " ", " "]] r c) ∧
      (∀ (inputs : List String) (b3 : Board),
        turn (fun r => r) [["X", " ", " "], [" ", " ", " "], [" ", " ", " "]] player2 inputs
          = .value b3 →
        ∃ m, isValidMove [["X", " ", " "], [" ", " ", " "], [" ", " ", " "]] m = some true ∧
          isMoveOutOfBounds [["X", " ", " "], [" ", " ", " "], [" ", " ", " "]] m
            = some false ∧
          cell [["X", " ", " "], [" ", " ", " "], [" ", " ", " "]] m.y m.x
            = some NullToken ∧
          makeMove [["X", " ", " "], [" ", " ", " "], [" ", " ", " "]] m player2 = some b3 ∧
          ∀ (r c : Int) (t : Token),
            cell [["X", " ", " "], [" ", " ", " "], [" ", " ", " "]] r c = some t →
            t ≠ NullToken → cell b3 r c = some t) ∧
      (∀ inputs : List String,
        turn (fun r => r) [["X", " ", " "], [" ", " ", " "], [" ", " ", " "]] player2 inputs
          ≠ .panic) :=
  turn_spec (fun r => r) [["X", " ", " "], [" ", " ", " "], [" ", " ", " "]] player2
    ["hello", "A0", "D1", "A1"] "b1" ["C3"] (by decide) (by decide)

/-! ## Winning after a move on a square board -/

/-- On a square board with `n ≥ 2`, `isWinner` returns, and returns true iff one of the
lines, read as `isWinningLine` reads it, holds one token that is not empty. -/
theorem isWinner_square_lines (b : Board) (n : Nat) (hn : 2 ≤ n) (hlen : b.length = n)
    (hrect : ∀ row ∈ b, row.length = n) :
    ∃ r, isWinner b = some r ∧
      (r = true ↔ ∃ l ∈ linesOf n n, ∃ t, t ≠ NullToken ∧
        ∀ m ∈ l, cell b m.x m.y = some t) := by
  have hlines := getAllLines_eq b n n (by omega) hlen hrect
  have hline : ∀ l ∈ linesOf n n, ∃ r, isWinningLine b l = some r ∧
      (r = true ↔ ∃ t, t ≠ NullToken ∧ ∀ m ∈ l, cell b m.x m.y = some t) := by
    intro l hl
    obtain ⟨h2, hcoords⟩ := linesOf_square_line n hn l hl
    apply isWinningLine_eq b l h2
    intro m hm
    obtain ⟨x, y, hx, hy, rfl⟩ := hcoords m hm
    exact cell_isSome b n n hlen hrect x y (by omega) (by omega) (by omega) (by omega)
  obtain ⟨r, hr, hiff⟩ := isWinnerLoop_eq b (linesOf n n)
    (fun l hl => (hline l hl).imp (fun _ h => h.1))
  refine ⟨r, by simp only [isWinner, hlines, Option.some_bind, hr], ?_⟩
  rw [hiff]
  constructor
  · rintro ⟨l, hl, hw⟩
    obtain ⟨r2, hr2, hiff2⟩ := hline l hl
    rw [hr2] at hw
    cases hw
    exact ⟨l, hl, hiff2.mp rfl⟩
  · rintro ⟨l, hl, hw⟩
    obtain ⟨r2, hr2, hiff2⟩ := hline l hl
    refine ⟨l, hl, ?_⟩
    rw [hr2, hiff2.mpr hw]

theorem isWinner_square_iff (b : Board) (n : Nat) (hn : 2 ≤ n) (hlen : b.length = n)
    (hrect : ∀ row ∈ b, row.length = n) :
    (isWinner b = some true ↔ hasFullLine b n) ∧
      (isWinner b = some false ↔ ¬ hasFullLine b n) := by
  obtain ⟨r, hr, hiff⟩ := isWinner_square_lines b n hn hlen hrect
  rw [exists_line_iff_hasFullLine] at hiff
  rw [hr]
  cases r with
  | true => simp [hiff.mp rfl]
  | false =>
    have : ¬ hasFullLine b n := fun h => by simpa using hiff.mpr h
    simp [this]

theorem rect_makeMove (b : Board) (w : Nat) (m : Move) (p : Player) (b2 : Board)
    (hrect : ∀ row ∈ b, row.length = w) (h : makeMove b m p = some b2) :
    ∀ row ∈ b2, row.length = w := by
  obtain ⟨row0, hrow0, _, _, _, _, rfl⟩ := makeMove_eq_some b m p b2 h
  intro row hrow
  rcases List.mem_or_eq_of_mem_set hrow with hmem | rfl
  · exact hrect row hmem
  · rw [List.length_set]
    exact hrect row0 (index_eq_some _ _ _ hrow0).2.2.2

theorem cell_bounds (b : Board) (w h : Nat) (hlen : b.length = h)
    (hrect : ∀ row ∈ b, row.length = w) (r c : Int) (t : Token)
    (hc : cell b r c = some t) : 0 ≤ r ∧ r < h ∧ 0 ≤ c ∧ c < w := by
  unfold cell at hc
  cases hrow : index b r with
  | none => simp [hrow] at hc
  | some row =>
    simp only [hrow, Option.some_bind] at hc
    obtain ⟨hr0, hr, _, hmem⟩ := index_eq_some _ _ _ hrow
    obtain ⟨hc0, hcw, _, _⟩ := index_eq_some _ _ _ hc
    rw [hrect row hmem] at hcw
    exact ⟨hr0, by omega, hc0, hcw⟩

/-- A full line of a board with `n ≥ 2` shows one non-empty token in two different cells. -/
theorem hasFullLine_two_cells (b : Board) (n : Nat) (hn : 2 ≤ n) (h : hasFullLine b n) :
    ∃ t, t ≠ NullToken ∧ ∃ r1 c1 r2 c2 : Int, (r1 ≠ r2 ∨ c1 ≠ c2) ∧
      cell b r1 c1 = some t ∧ cell b r2 c2 = some t := by
  obtain ⟨t, htn, ⟨y, _, hrow⟩ | ⟨x, _, hcol⟩ | hdiag | hanti⟩ := h
  · exact ⟨t, htn, y, (0 : Nat), y, (1 : Nat), Or.inr (by omega), hrow 0 (by omega),
      hrow 1 (by omega)⟩
  · exact ⟨t, htn, (0 : Nat), x, (1 : Nat), x, Or.inl (by omega), hcol 0 (by omega),
      hcol 1 (by omega)⟩
  · exact ⟨t, htn, (0 : Nat), (0 : Nat), (1 : Nat), (1 : Nat), Or.inl (by omega),
      hdiag 0 (by omega), hdiag 1 (by omega)⟩
  · exact ⟨t, htn, (0 : Nat), _, (1 : Nat), _, Or.inl (by omega), hanti 0 (by omega),
      hanti 1 (by omega)⟩

/-- C18: for `n ≥ 2`, `isWinner` is false on the fresh board `newBoard(n, n, NullToken)`,
and for every in-bounds move and every player it is still false on the board `makeMove`
returns: one filled cell is never a win. -/
theorem isWinner_one_move (n : Nat) (hn : 2 ≤ n) (b : Board)
    (hb : newBoard n n NullToken = some b) (m : Move) (p : Player)
    (hx0 : 0 ≤ m.x) (hx : m.x < n) (hy0 : 0 ≤ m.y) (hy : m.y < n) :
    isWinner b = some false ∧ ∃ b2, makeMove b m p = some b2 ∧ isWinner b2 = some false := by
  rw [newBoard_eq n n NullToken (by omega) (by omega)] at hb
  simp only [Int.toNat_ofNat, Option.some.injEq] at hb
  have hlen : b.length = n := by rw [← hb, List.length_replicate]
  have hrect : ∀ row ∈ b, row.length = n := by
    intro row hrow
    rw [← hb] at hrow
    rw [List.eq_of_mem_replicate hrow, List.length_replicate]
  have hnull : ∀ (r c : Int) (t : Token), cell b r c = some t → t = NullToken := by
    intro r c t hc
    obtain ⟨h1, h2, h3, h4⟩ := cell_bounds b n n hlen hrect r c t hc
    rw [← hb] at hc
    unfold cell at hc
    rw [index_replicate _ _ r h1 h2] at hc
    simp only [Option.some_bind] at hc
    rw [index_replicate _ _ c h3 h4] at hc
    cases hc
    rfl
  constructor
  · rw [(isWinner_square_iff b n hn hlen hrect).2]
    intro hfull
    obtain ⟨t, htn, r1, c1, _, _, _, h1, _⟩ := hasFullLine_two_cells b n hn hfull
    exact htn (hnull r1 c1 t h1)
  · obtain ⟨t0, ht0⟩ := cell_isSome b n n hlen hrect m.y m.x hy0 hy hx0 hx
    obtain ⟨b2, hb2⟩ := makeMove_isSome b m p t0 ht0
    refine ⟨b2, hb2, ?_⟩
    rw [(isWinner_square_iff b2 n hn ((length_makeMove b m p b2 hb2).trans hlen)
      (rect_makeMove b n m p b2 hrect hb2)).2]
    intro hfull
    obtain ⟨t, htn, r1, c1, r2, c2, hne, h1, h2⟩ := hasFullLine_two_cells b2 n hn hfull
    by_cases hp1 : r1 = m.y ∧ c1 = m.x
    · have hne2 : r2 ≠ m.y ∨ c2 ≠ m.x := by
        rcases hne with h | h
        · exact Or.inl (fun h3 => h (hp1.1.trans h3.symm))
        · exact Or.inr (fun h3 => h (hp1.2.trans h3.symm))
      rw [cell_makeMove_other b m p b2 hb2 r2 c2 hne2] at h2
      exact htn (hnull r2 c2 t h2)
    · have hne1 : r1 ≠ m.y ∨ c1 ≠ m.x := by
        by_contra hcon
        simp only [not_or, not_not] at hcon
        exact hp1 hcon
      rw [cell_makeMove_other b m p b2 hb2 r1 c1 hne1] at h1
      exact htn (hnull r1 c1 t h1)

theorem isWinner_one_move_witness :
    gridRefToMove (fun r => r) "A1" = some ⟨0, 0⟩ ∧
      isWinner [[" ", " ", " "], [" ", " ", " "], [" ", " ", " "]] = some false ∧
      ∃ b2, makeMove [[" ", " ", " "], [" ", " ", " "], [" ", " ", " "]] ⟨0, 0⟩ player1
          = some b2 ∧ isWinner b2 = some false :=
  ⟨by decide,
    isWinner_one_move 3 (by decide) [[" ", " ", " "], [" ", " ", " "], [" ", " ", " "]]
      (by decide) ⟨0, 0⟩ player1 (by decide) (by decide) (by decide) (by decide)⟩

/-- C19: on an `n` x `n` board (`n ≥ 2`) where `isWinner` is false, when `makeMove` at a
move that passes `isValidMove` makes `isWinner` true, a full row, column or diagonal of the
new board through the cell just played consists entirely of the token of the player who
moved. -/
theorem isWinner_after_move (b : Board) (n : Nat) (hn : 2 ≤ n) (hlen : b.length = n)
    (hrect : ∀ row ∈ b, row.length = n) (m : Move) (p : Player) (b2 : Board)
    (hbefore : isWinner b = some false) (hvalid : isValidMove b m = some true)
    (htoken : p.token ≠ NullToken) (hmove : makeMove b m p = some b2)
    (hafter : isWinner b2 = some true) :
    fullLineThrough b2 n p.token m := by
  have _ := htoken
  have hnot : ¬ hasFullLine b n := (isWinner_square_iff b n hn hlen hrect).2.mp hbefore
  have hfull : hasFullLine b2 n :=
    (isWinner_square_iff b2 n hn ((length_makeMove b m p b2 hmove).trans hlen)
      (rect_makeMove b n m p b2 hrect hmove)).1.mp hafter
  obtain ⟨hy0, hy, hx0, hx⟩ :
      0 ≤ m.y ∧ m.y < n ∧ 0 ≤ m.x ∧ m.x < n :=
    cell_bounds b n n hlen hrect m.y m.x NullToken (isValidMove_true b m hvalid).2
  have hplayed := cell_makeMove_self b m p b2 hmove
  have hother := cell_makeMove_other b m p b2 hmove
  have hmx : ((m.x.toNat : Nat) : Int) = m.x := Int.toNat_of_nonneg hx0
  have hmy : ((m.y.toNat : Nat) : Int) = m.y := Int.toNat_of_nonneg hy0
  obtain ⟨t, htn, ⟨y, hyn, hrow⟩ | ⟨x, hxn, hcol⟩ | hdiag | hanti⟩ := hfull
  · by_cases hym : (y : Int) = m.y
    · have ht := hrow m.x.toNat (by omega)
      rw [hmx, hym, hplayed] at ht
      cases ht
      left
      intro x hxn
      rw [← hym]
      exact hrow x hxn
    · exfalso
      apply hnot
      refine ⟨t, htn, Or.inl ⟨y, hyn, fun x hxn => ?_⟩⟩
      rw [← hother y x (Or.inl hym)]
      exact hrow x hxn
  · by_cases hxm : (x : Int) = m.x
    · have ht := hcol m.y.toNat (by omega)
      rw [hmy, hxm, hplayed] at ht
      cases ht
      right; left
      intro y hyn
      rw [← hxm]
      exact hcol y hyn
    · exfalso
      apply hnot
      refine ⟨t, htn, Or.inr (Or.inl ⟨x, hxn, fun y hyn => ?_⟩)⟩
      rw [← hother y x (Or.inr hxm)]
      exact hcol y hyn
  · by_cases hxy : m.y = m.x
    · have ht := hdiag m.y.toNat (by omega)
      rw [hmy] at ht
      nth_rewrite 2 [hxy] at ht
      rw [hplayed] at ht
      cases ht
      right; right; left
      exact ⟨hxy, hdiag⟩
    · exfalso
      apply hnot
      refine ⟨t, htn, Or.inr (Or.inr (Or.inl (fun i hi => ?_)))⟩
      rw [← hother i i (by
        by_contra hcon
        simp only [not_or, not_not] at hcon
        exact hxy (hcon.1.symm.trans hcon.2))]
      exact hdiag i hi
  · by_cases hsum : m.x + m.y = (n : Int) - 1
    · have ht := hanti m.y.toNat (by omega)
      have hcol : (n : Int) - 1 - ((m.y.toNat : Nat) : Int) = m.x := by omega
      rw [hcol, hmy, hplayed] at ht
      cases ht
      right; right; right
      exact ⟨hsum, hanti⟩
    · exfalso
      apply hnot
      refine ⟨t, htn, Or.inr (Or.inr (Or.inr (fun i hi => ?_)))⟩
      rw [← hother i ((n : Int) - 1 - i) (by
        by_contra hcon
        simp only [not_or, not_not] at hcon
        omega)]
      exact hanti i hi

theorem isWinner_after_move_witness :
    (gridRefToMove (fun r => r) "A1" = some ⟨0, 0⟩ ∧
      gridRefToMove (fun r => r) "B1" = some ⟨1, 0⟩ ∧
      gridRefToMove (fun r => r) "B2" = some ⟨1, 1⟩ ∧
      gridRefToMove (fun r => r) "C1" = some ⟨2, 0⟩ ∧
      gridRefToMove (fun r => r) "C3" = some ⟨2, 2⟩) ∧
    (newBoard 3 3 NullToken = some [[" ", " ", " "], [" ", " ", " "], [" ", " ", " "]] ∧
      makeMove [[" ", " ", " "], [" ", " ", " "], [" ", " ", " "]] ⟨0, 0⟩ player1
        = some [["X", " ", " "], [" ", " ", " "], [" ", " ", " "]] ∧
      isWinner [["X", " ", " "], [" ", " ", " "], [" ", " ", " "]] = some false ∧
      makeMove [["X", " ", " "], [" ", " ", " "], [" ", " ", " "]] ⟨1, 0⟩ player2
        = some [["X", "O", " "], [" ", " ", " "], [" ", " ", " "]] ∧
      isWinner [["X", "O", " "], [" ", " ", " "], [" ", " ", " "]] = some false ∧
      makeMove [["X", "O", " "], [" ", " ", " "], [" ", " ", " "]] ⟨1, 1⟩ player1
        = some [["X", "O", " "], [" ", "X", " "], [" ", " ", " "]] ∧
      isWinner [["X", "O", " "], [" ", "X", " "], [" ", " ", " "]] = some false ∧
      makeMove [["X", "O", " "], [" ", "X", " "], [" ", " ", " "]] ⟨2, 0⟩ player2
        = some [["X", "O", "O"], [" ", "X", " "], [" ", " ", " "]] ∧
      isWinner [["X", "O", "O"], [" ", "X", " "], [" ", " ", " "]] = some false ∧
      makeMove [["X", "O", "O"], [" ", "X", " "], [" ", " ", " "]] ⟨2, 2⟩ player1
        = some [["X", "O", "O"], [" ", "X", " "], [" ", " ", "X"]] ∧
      isWinner [["X", "O", "O"], [" ", "X", " "], [" ", " ", "X"]] = some true) ∧
    fullLineThrough [["X", "O", "O"], [" ", "X", " "], [" ", " ", "X"]] 3 player1.token
      ⟨2, 2⟩ :=
  ⟨by decide, by decide,
    isWinner_after_move [["X", "O", "O"], [" ", "X", " "], [" ", " ", " "]] 3 (by decide)
      (by decide) (by decide) ⟨2, 2⟩ player1
      [["X", "O", "O"], [" ", "X", " "], [" ", " ", "X"]] (by decide) (by decide)
      (by decide) (by decide) (by decide)⟩

/-! ## The write of `makeMove` on Go values -/

theorem separateRows_at (b : SliceBoard) (hsep : separateRows b) (i j : Nat)
    (ri rj : RowSlice) (hi : b[i]? = some ri) (hj : b[j]? = some rj) (hne : i ≠ j)
    (harr : ri.arr = rj.arr) :
    ¬ (0 < ri.len ∧ 0 < rj.len ∧ ri.off < rj.off + rj.len ∧ rj.off < ri.off + ri.len) := by
  obtain ⟨hil, rfl⟩ := List.getElem?_eq_some_iff.mp hi
  obtain ⟨hjl, rfl⟩ := List.getElem?_eq_some_iff.mp hj
  have hp := List.pairwise_iff_getElem.mp hsep
  rcases Nat.lt_or_gt_of_ne hne with hlt | hgt
  · have h := hp i j hil hjl hlt
    simp only [rowsOverlap, harr, beq_self_eq_true, Bool.true_and, Bool.and_eq_false_iff,
      decide_eq_false_iff_not] at h
    rintro ⟨h1, h2, h3, h4⟩
    rcases h with ((h | h) | h) | h
    · exact h h1
    · exact h h2
    · exact h h3
    · exact h h4
  · have h := hp j i hjl hil hgt
    simp only [rowsOverlap, harr, beq_self_eq_true, Bool.true_and, Bool.and_eq_false_iff,
      decide_eq_false_iff_not] at h
    rintro ⟨h1, h2, h3, h4⟩
    rcases h with ((h | h) | h) | h
    · exact h h2
    · exact h h1
    · exact h h4
    · exact h h3

/-- What a successful double index tells about the row slice and the backing array. -/
theorem storeCell_eq_some (s : Store) (b : SliceBoard) (r c : Int) (t : Token)
    (h : storeCell s b r c = some t) :
    ∃ row a, index b r = some row ∧ 0 ≤ c ∧ c < (row.len : Int) ∧ s[row.arr]? = some a ∧
      a[row.off + c.toNat]? = some t := by
  unfold storeCell at h
  cases hrow : index b r with
  | none => simp [hrow] at h
  | some row =>
    simp only [hrow, Option.some_bind, rowCell] at h
    split at h
    · cases h
    · rename_i hc
      cases ha : s[row.arr]? with
      | none => simp [ha] at h
      | some a =>
        simp only [ha, Option.some_bind] at h
        exact ⟨row, a, rfl, by omega, by omega, ha, h⟩

/-- On a move addressing an existing cell the write succeeds and is one `set` in the
backing array of row `m.y`. -/
theorem makeMoveInPlace_eq (s : Store) (b : SliceBoard) (m : Move) (p : Player) (t : Token)
    (hcell : storeCell s b m.y m.x = some t) :
    ∃ row a, index b m.y = some row ∧ 0 ≤ m.x ∧ m.x < (row.len : Int) ∧
      s[row.arr]? = some a ∧ row.off + m.x.toNat < a.length ∧
      makeMoveInPlace s b m p
        = some (s.set row.arr (a.set (row.off + m.x.toNat) p.token), b) := by
  obtain ⟨row, a, hrow, hx0, hx, ha, hat⟩ := storeCell_eq_some s b m.y m.x t hcell
  have hlt : row.off + m.x.toNat < a.length := (List.getElem?_eq_some_iff.mp hat).1
  refine ⟨row, a, hrow, hx0, hx, ha, hlt, ?_⟩
  unfold makeMoveInPlace
  simp only [hrow, Option.some_bind]
  rw [if_neg (by omega)]
  simp only [ha, Option.some_bind]
  rw [if_pos hlt]

/-- After the write, the cell played reads the token written. -/
theorem storeCell_write_self (s : Store) (b : SliceBoard) (m : Move) (tok : Token)
    (row : RowSlice) (a : List Token) (hrow : index b m.y = some row) (hx0 : 0 ≤ m.x)
    (hx : m.x < (row.len : Int)) (ha : s[row.arr]? = some a)
    (hlt : row.off + m.x.toNat < a.length) :
    storeCell (s.set row.arr (a.set (row.off + m.x.toNat) tok)) b m.y m.x = some tok := by
  have harr : row.arr < s.length := (List.getElem?_eq_some_iff.mp ha).1
  unfold storeCell rowCell
  simp only [hrow, Option.some_bind]
  rw [if_neg (by omega), List.getElem?_set_self harr]
  simp only [Option.some_bind]
  exact List.getElem?_set_self hlt

/-- After the write, every other cell of a board with separate rows reads as before. -/
theorem storeCell_write_other (s : Store) (b : SliceBoard) (hsep : separateRows b)
    (m : Move) (tok : Token) (row : RowSlice) (a : List Token)
    (hrow : index b m.y = some row) (hx0 : 0 ≤ m.x) (hx : m.x < (row.len : Int))
    (ha : s[row.arr]? = some a) (r c : Int) (hne : r ≠ m.y ∨ c ≠ m.x) :
    storeCell (s.set row.arr (a.set (row.off + m.x.toNat) tok)) b r c
      = storeCell s b r c := by
  have harr : row.arr < s.length := (List.getElem?_eq_some_iff.mp ha).1
  unfold storeCell
  cases hrow2 : index b r with
  | none => rfl
  | some row2 =>
    simp only [Option.some_bind, rowCell]
    by_cases hc : c < 0 ∨ (row2.len : Int) ≤ c
    · rw [if_pos hc, if_pos hc]
    · rw [if_neg hc, if_neg hc]
      by_cases hsame : row2.arr = row.arr
      · rw [hsame, List.getElem?_set_self harr, ha]
        simp only [Option.some_bind]
        apply List.getElem?_set_ne
        obtain ⟨hy0, _, hyget, _⟩ := index_eq_some _ _ _ hrow
        obtain ⟨hr0, _, hrget, _⟩ := index_eq_some _ _ _ hrow2
        by_cases hr : r = m.y
        · subst hr
          rw [hrow] at hrow2
          cases hrow2
          have hcx : c ≠ m.x := by
            rcases hne with h | h
            · exact absurd rfl h
            · exact h
          omega
        · have hidx : m.y.toNat ≠ r.toNat := by omega
          have hno := separateRows_at b hsep m.y.toNat r.toNat row row2 hyget hrget hidx
            hsame.symm
          intro heq
          apply hno
          omega
      · rw [List.getElem?_set_ne (fun h => hsame h.symm)]

/-- The write succeeds, the cell played reads the token and the other cells are kept. -/
theorem makeMoveInPlace_cells (s : Store) (b : SliceBoard) (m : Move) (p : Player)
    (t : Token) (hsep : separateRows b) (hcell : storeCell s b m.y m.x = some t) :
    ∃ s2, makeMoveInPlace s b m p = some (s2, b) ∧
      storeCell s2 b m.y m.x = some p.token ∧
      (∀ r c : Int, (r ≠ m.y ∨ c ≠ m.x) → storeCell s2 b r c = storeCell s b r c) := by
  obtain ⟨row, a, hrow, hx0, hx, ha, hlt, hmk⟩ := makeMoveInPlace_eq s b m p t hcell
  exact ⟨_, hmk, storeCell_write_self s b m p.token row a hrow hx0 hx ha hlt,
    storeCell_write_other s b hsep m p.token row a hrow hx0 hx ha⟩

/-- C11, as the code has it: for a board whose rows share no element of a backing array, a
move addressing an existing cell and a player, `makeMove` returns, the board it returns has
the same number of rows and the same row lengths, its cell at row `m.y`, column `m.x` is the
token of the player, and its every other cell is the cell of `b` at that position. -/
theorem makeMove_frame_separate (s : Store) (b : SliceBoard) (m : Move) (p : Player)
    (t : Token) (hsep : separateRows b) (hcell : storeCell s b m.y m.x = some t) :
    ∃ s2 b2, makeMoveInPlace s b m p = some (s2, b2) ∧ b2.length = b.length ∧
      (∀ r : Int, (index b2 r).map RowSlice.len = (index b r).map RowSlice.len) ∧
      storeCell s2 b2 m.y m.x = some p.token ∧
      (∀ r c : Int, (r ≠ m.y ∨ c ≠ m.x) → storeCell s2 b2 r c = storeCell s b r c) := by
  obtain ⟨s2, hmk, hself, hother⟩ := makeMoveInPlace_cells s b m p t hsep hcell
  exact ⟨s2, b, hmk, rfl, fun _ => rfl, hself, hother⟩

theorem makeMove_frame_separate_witness :
    ∃ s2 b2, makeMoveInPlace [["O", " ", " ", "X"]] [⟨0, 0, 2⟩, ⟨0, 2, 2⟩] ⟨1, 0⟩ player1
          = some (s2, b2) ∧
      b2.length = [(⟨0, 0, 2⟩ : RowSlice), ⟨0, 2, 2⟩].length ∧
      (∀ r : Int, (index b2 r).map RowSlice.len
        = (index [(⟨0, 0, 2⟩ : RowSlice), ⟨0, 2, 2⟩] r).map RowSlice.len) ∧
      storeCell s2 b2 0 1 = some player1.token ∧
      (∀ r c : Int, (r ≠ 0 ∨ c ≠ 1) →
        storeCell s2 b2 r c
          = storeCell [["O", " ", " ", "X"]] [⟨0, 0, 2⟩, ⟨0, 2, 2⟩] r c) :=
  makeMove_frame_separate [["O", " ", " ", "X"]] [⟨0, 0, 2⟩, ⟨0, 2, 2⟩] ⟨1, 0⟩ player1 " "
    (by decide) (by decide)

/-- C11 fails on a board whose two rows are one slice (`row := []Token{" ", " "}`,
`Board{row, row}`): the move at column 0, row 0 addresses an existing cell, and the write
also changes the cell at column 0, row 1 from `NullToken` to the token of the player. -/
theorem makeMove_aliased_rows :
    storeCell [[" ", " "]] [⟨0, 0, 2⟩, ⟨0, 0, 2⟩] 0 0 = some " " ∧
      ∃ s2 b2, makeMoveInPlace [[" ", " "]] [⟨0, 0, 2⟩, ⟨0, 0, 2⟩] ⟨0, 0⟩ player1
          = some (s2, b2) ∧
        ((1 : Int) ≠ 0 ∨ (0 : Int) ≠ 0) ∧
        storeCell [[" ", " "]] [⟨0, 0, 2⟩, ⟨0, 0, 2⟩] 1 0 = some NullToken ∧
        storeCell s2 b2 1 0 = some XToken ∧
        storeCell s2 b2 1 0 ≠ storeCell [[" ", " "]] [⟨0, 0, 2⟩, ⟨0, 0, 2⟩] 1 0 :=
  ⟨by decide, [["X", " "]], [⟨0, 0, 2⟩, ⟨0, 0, 2⟩], by decide, by decide, by decide,
    by decide, by decide⟩

/-- On a board with separate rows the write in place is `makeMove` on the board of lists:
when the lists are the board read in the store before the write, `makeMove` returns the
lists that are the board read in the store after it. -/
theorem makeMove_simulates (s : Store) (b : SliceBoard) (bd : Board) (m : Move) (p : Player)
    (t : Token) (hrep : represents s b bd) (hsep : separateRows b)
    (hcell : storeCell s b m.y m.x = some t) :
    ∃ s2 bd2, makeMoveInPlace s b m p = some (s2, b) ∧ makeMove bd m p = some bd2 ∧
      represents s2 b bd2 := by
  obtain ⟨hlen, hrows, hcells⟩ := hrep
  obtain ⟨s2, hmk, hself, hother⟩ := makeMoveInPlace_cells s b m p t hsep hcell
  have hbd : cell bd m.y m.x = some t := by rw [hcells, hcell]
  obtain ⟨bd2, hbd2⟩ := makeMove_isSome bd m p t hbd
  refine ⟨s2, bd2, hmk, hbd2, (length_makeMove bd m p bd2 hbd2).trans hlen, ?_, ?_⟩
  · intro r
    rw [rowLength_makeMove bd m p bd2 hbd2 r, hrows r]
  · intro r c
    by_cases hp : r = m.y ∧ c = m.x
    · rw [hp.1, hp.2, cell_makeMove_self bd m p bd2 hbd2, hself]
    · have hne : r ≠ m.y ∨ c ≠ m.x := by
        by_contra hcon
        simp only [not_or, not_not] at hcon
        exact hp hcon
      rw [cell_makeMove_other bd m p bd2 hbd2 r c hne, hother r c hne, hcells]

/-- The board `newBoard` builds has separate rows (each row is a new backing array), and
read in the store it is the board of lists of `newBoard`. -/
theorem newBoardInStore_spec (s : Store) (x y : Int) (t : Token) (hx : 0 ≤ x) (hy : 0 ≤ y) :
    ∃ s2 b bd, newBoardInStore s x y t = some (s2, b) ∧ newBoard x y t = some bd ∧
      separateRows b ∧ represents s2 b bd := by
  have hb : ∀ r : Int, 0 ≤ r → r < y →
      index ((List.range y.toNat).map (fun (i : Nat) => RowSlice.mk (s.length + i) 0 x.toNat)) r
        = some (RowSlice.mk (s.length + r.toNat) 0 x.toNat) := by
    intro r hr0 hr
    rw [index_of_nonneg _ r hr0, List.getElem?_map, List.getElem?_range (by omega)]
    rfl
  have hbnone : ∀ r : Int, ¬ (0 ≤ r ∧ r < y) →
      index ((List.range y.toNat).map (fun (i : Nat) => RowSlice.mk (s.length + i) 0 x.toNat)) r
        = none := by
    intro r hr
    by_cases hr0 : r < 0
    · exact index_eq_none_of_neg _ r hr0
    · apply index_eq_none_of_le
      simp only [List.length_map, List.length_range]
      omega
  have hbdnone : ∀ r : Int, ¬ (0 ≤ r ∧ r < y) →
      index (List.replicate y.toNat (List.replicate x.toNat t)) r = none := by
    intro r hr
    by_cases hr0 : r < 0
    · exact index_eq_none_of_neg _ r hr0
    · apply index_eq_none_of_le
      simp only [List.length_replicate]
      omega
  refine ⟨s ++ List.replicate y.toNat (List.replicate x.toNat t),
    (List.range y.toNat).map (fun (i : Nat) => RowSlice.mk (s.length + i) 0 x.toNat),
    List.replicate y.toNat (List.replicate x.toNat t), ?_, newBoard_eq x y t hx hy, ?_, ?_, ?_,
    ?_⟩
  · unfold newBoardInStore
    rw [if_neg (by omega), if_neg (by omega)]
  · unfold separateRows
    rw [List.pairwise_map]
    apply (List.nodup_range y.toNat).pairwise_of_forall_ne
    intro i _ j _ hne
    simp only [rowsOverlap, Bool.and_eq_false_iff, beq_eq_false_iff_ne, ne_eq]
    left; left; left; left
    omega
  · simp only [List.length_replicate, List.length_map, List.length_range]
  · intro r
    by_cases hr : 0 ≤ r ∧ r < y
    · rw [hb r hr.1 hr.2, index_replicate _ _ r hr.1 (by omega)]
      simp
    · rw [hbnone r hr, hbdnone r hr]
      rfl
  · intro r c
    unfold cell storeCell
    by_cases hr : 0 ≤ r ∧ r < y
    · rw [hb r hr.1 hr.2, index_replicate _ _ r hr.1 (by omega)]
      simp only [Option.some_bind, rowCell]
      by_cases hc : c < 0 ∨ ((x.toNat : Nat) : Int) ≤ c
      · rw [if_pos hc]
        rcases hc with hc | hc
        · exact index_eq_none_of_neg _ c hc
        · apply index_eq_none_of_le
          simp only [List.length_replicate]
          exact hc
      · rw [if_neg hc, List.getElem?_append_right (by omega)]
        have h1 : s.length + r.toNat - s.length = r.toNat := by omega
        rw [h1, List.getElem?_replicate_of_lt (by omega)]
        simp only [Option.some_bind, Nat.zero_add]
        rw [List.getElem?_replicate_of_lt (by omega)]
        exact index_replicate _ _ c (by omega) (by omega)
    · rw [hbnone r hr, hbdnone r hr]
      rfl

end TicTacToe
